import Mathlib

set_option maxRecDepth 40000

/-!
# Verification of the FerretRobot command-interpretation pipeline

Shallow embedding of the core pipeline of `src/bridge.py`:
text normalization (`normalize_es` and helpers), the deterministic
fast path (`deterministic_fastpath`, `parse_index_from_text`,
`parse_qty_ops`), the guardrail engine (`apply_guardrails`), catalog
normalization, the coherence post-processor and the `interpret`
endpoint.  Strings are modelled as `List Char`; Python regexes are
embedded as hand-written matchers with Python's leftmost / first-
alternative / greedy semantics; Python truthiness and `int()` coercion
are embedded explicitly.  The external LLM call is an oracle
parameter (`none` models any transport / timeout / JSON-parse
failure).  Character-level scope: ASCII plus the Spanish accented
letters that the source's vocabulary uses; `\s` is modelled by the
ASCII whitespace characters, `\w` by ASCII alphanumerics, `_` and the
modelled accented letters (Python's full Unicode tables are out of
scope and not exercised by the source's vocabulary).
-/

namespace Bridge

/-- JSON-scalar parameter value as handled by `_coerce_params` in
`bridge.py`.  `bad` marks a non-JSON-serializable object (dropped by
coercion, raises when used as a regex subject). -/
inductive PVal where
  | str (s : String)
  | int (n : Int)
  | bool (b : Bool)
  | null
  | bad
deriving DecidableEq, Repr

/-- Python truthiness of a parameter value (`bool(v)`); a `bad`
(arbitrary) object is modelled as truthy. -/
def pyTruthy : PVal → Bool
  | .str s => s ≠ ""
  | .int n => n ≠ 0
  | .bool b => b
  | .null => false
  | .bad => true

/-- ASCII whitespace characters matched by Python `\s` / stripped by
`str.strip()` (Unicode-only whitespace is out of modelled scope). -/
def isSp (c : Char) : Bool :=
  c = ' ' || c = Char.ofNat 9 || c = Char.ofNat 10 ||
  c = Char.ofNat 13 || c = Char.ofNat 11 || c = Char.ofNat 12

def isDigitCh (c : Char) : Bool := '0' ≤ c && c ≤ '9'

/-- Accented letters modelled for `strip_accents` / case folding. -/
def accLower : List Char := ['á', 'é', 'í', 'ó', 'ú', 'ü', 'ñ']

def accUpper : List Char := ['Á', 'É', 'Í', 'Ó', 'Ú', 'Ü', 'Ñ']

/-- Python `\w` (word character) over the modelled alphabet. -/
def isWordCh (c : Char) : Bool :=
  ('a' ≤ c && c ≤ 'z') || ('A' ≤ c && c ≤ 'Z') || isDigitCh c ||
  c = '_' || accLower.contains c || accUpper.contains c

/-- Case folding used for `re.I` and `str.lower()`. -/
def lowerCh (c : Char) : Char :=
  if 'A' ≤ c && c ≤ 'Z' then Char.ofNat (c.toNat + 32)
  else if c = 'Á' then 'á' else if c = 'É' then 'é'
  else if c = 'Í' then 'í' else if c = 'Ó' then 'ó'
  else if c = 'Ú' then 'ú' else if c = 'Ü' then 'ü'
  else if c = 'Ñ' then 'ñ' else c

/-- `str.upper()` over the captured (ASCII) vocabulary. -/
def upperCh (c : Char) : Char :=
  if 'a' ≤ c && c ≤ 'z' then Char.ofNat (c.toNat - 32) else c

/-- One character of `strip_accents` (NFKD + drop combining marks)
over the modelled accented range. -/
def stripAccentCh (c : Char) : Char :=
  if c = 'á' then 'a' else if c = 'é' then 'e' else if c = 'í' then 'i'
  else if c = 'ó' then 'o' else if c = 'ú' then 'u' else if c = 'ü' then 'u'
  else if c = 'ñ' then 'n' else if c = 'Á' then 'A' else if c = 'É' then 'E'
  else if c = 'Í' then 'I' else if c = 'Ó' then 'O' else if c = 'Ú' then 'U'
  else if c = 'Ü' then 'U' else if c = 'Ñ' then 'N' else c

def pyLowerL (s : List Char) : List Char := s.map lowerCh

def pyUpperL (s : List Char) : List Char := s.map upperCh

/-- `str.strip()`. -/
def pyStripL (s : List Char) : List Char :=
  ((s.dropWhile isSp).reverse.dropWhile isSp).reverse

def pyStrip (s : String) : String := ⟨pyStripL s.data⟩

/-- Python `int(str)` parse: optional surrounding whitespace, optional
sign, one or more digits (underscore grouping not modelled). -/
def pyIntOfStrL (s : List Char) : Option Int :=
  let t := pyStripL s
  let core : List Char → Option Int := fun u =>
    if u ≠ [] ∧ u.all isDigitCh then
      some (u.foldl (fun a c => a * 10 + (c.toNat - 48 : Int)) 0)
    else none
  match t with
  | '-' :: rest => (core rest).map (fun n => -n)
  | '+' :: rest => core rest
  | _ => core t

/-- Python `int(v)` over a parameter value; `none` models a raised
`TypeError` / `ValueError`. -/
def pyInt : PVal → Option Int
  | .str s => pyIntOfStrL s.data
  | .int n => some n
  | .bool b => some (if b then 1 else 0)
  | .null => none
  | .bad => none

/-- Parameter dictionary: ordered key / value pairs (Python dicts keep
insertion order; keys are unique in every reachable dict). -/
abbrev Params := List (String × PVal)

def pGet (ps : Params) (k : String) : Option PVal :=
  (List.find? (fun kv => kv.1 == k) ps).map (·.2)

def pHas (ps : Params) (k : String) : Bool :=
  (ps : List (String × PVal)).any (fun kv => kv.1 == k)

/-- Remove the (unique) binding of `k` (Python `dict.pop`). -/
def pErase (ps : Params) (k : String) : Params :=
  (ps : List (String × PVal)).filter (fun kv => kv.1 ≠ k)

/-- `d[k] = v`: update in place if present (position kept), else
append at the end. -/
def pSet (ps : Params) (k : String) (v : PVal) : Params :=
  match ps, k, v with
  | [], k, v => [(k, v)]
  | (k', v') :: rest, k, v =>
    if k' = k then (k', v) :: rest else (k', v') :: pSet rest k v

/-- A UI action as emitted by the pipeline. -/
structure Action where
  action : String
  params : Params
deriving DecidableEq, Repr

/-- A raw candidate action from the planner (its `action` value can be
any JSON scalar; a missing / non-dict `params` coerces to `{}`). -/
structure Cand where
  action : PVal
  params : Params
deriving DecidableEq, Repr

def Action.toCand (a : Action) : Cand := ⟨.str a.action, a.params⟩

/-- Search-result row (`state.results` entry), restricted to the keys
the pipeline reads. -/
structure Row where
  item_code : Option String := none
  code : Option String := none
  name : Option String := none
deriving DecidableEq, Repr

/-- Cart line (`state.cart` entry), restricted to the keys the
pipeline reads. -/
structure CartItem where
  item_code : Option String := none
  code : Option String := none
  name : Option String := none
  qty : Option Int := none
deriving DecidableEq, Repr

/-- Conversation state snapshot as read by the pipeline (read-only;
`payments = []` covers both an empty and an absent list, which Python
treats identically by truthiness). -/
structure ConvState where
  mode : String := ""
  results : List Row := []
  selected_index : Option Int := none
  qty_hint : Option Int := none
  cart : List CartItem := []
  payments : List Unit := []
deriving DecidableEq, Repr

/-- Truthiness of an optional integer state field (`0` and `None` are
falsy). -/
def truthyOptInt : Option Int → Bool
  | some n => n ≠ 0
  | none => false

/-! ## Regex machinery

Python regexes are embedded as scanners over `List Char` with
leftmost-position, ordered-alternative, greedy semantics.  A word
boundary `\b` is tested through the character before the current
position (carried along the scan). -/

def nlCh : Char := Char.ofNat 10

def isWordO : Option Char → Bool
  | some c => isWordCh c
  | none => false

/-- `\b` holds right after a word character: the rest must start with
a non-word character or be empty. -/
def wordEnd (s : List Char) : Bool :=
  match s with
  | [] => true
  | c :: _ => !isWordCh c

/-- Exact literal prefix; returns the remainder. -/
def litL : List Char → List Char → Option (List Char)
  | [], s => some s
  | _, [] => none
  | p :: ps, c :: cs => if p = c then litL ps cs else none

/-- Case-insensitive (`re.I`) literal prefix over the modelled fold. -/
def litIL : List Char → List Char → Option (List Char)
  | [], s => some s
  | _, [] => none
  | p :: ps, c :: cs => if lowerCh p = lowerCh c then litIL ps cs else none

/-- Pattern segment of the linear regexes used by the source.
Quantified character classes appear only as `\s+` / `\s*`, always
followed by a non-space requirement, so greedy matching needs no
backtracking there. -/
inductive Seg where
  | lit (s : String)
  | alts (ss : List String)
  | opt (ss : List String)
  | sp1
  | sp0
deriving Repr

/-- All remainders after matching a segment sequence, in Python's
preference order (alternatives first-to-last, optional groups
present-then-absent). -/
def matchSegs : List Seg → List Char → List (List Char)
  | [], s => [s]
  | seg :: rest, s =>
    (match seg with
     | .lit p => match litIL p.data s with | some r => [r] | none => []
     | .alts ps => ps.filterMap (fun (p : String) => litIL p.data s)
     | .opt ps => ps.filterMap (fun (p : String) => litIL p.data s) ++ [s]
     | .sp1 =>
       match s with
       | c :: _ => if isSp c then [s.dropWhile isSp] else []
       | [] => []
     | .sp0 => [s.dropWhile isSp]).flatMap (matchSegs rest)

/-- Scan (`re.search`) with a boolean step, threading the previous
character for `\b` tests. -/
def scanB (f : Option Char → List Char → Bool) : Option Char → List Char → Bool
  | prev, [] => f prev []
  | prev, c :: cs => f prev (c :: cs) || scanB f (some c) cs

def searchB (f : Option Char → List Char → Bool) (s : List Char) : Bool :=
  scanB f none s

/-- Scan (`re.search`) with a capturing step: first (leftmost)
success wins. -/
def scanO {α : Type} (f : Option Char → List Char → Option α) :
    Option Char → List Char → Option α
  | prev, [] => f prev []
  | prev, c :: cs =>
    match f prev (c :: cs) with
    | some v => some v
    | none => scanO f (some c) cs

def searchO {α : Type} (f : Option Char → List Char → Option α) (s : List Char) :
    Option α :=
  scanO f none s

/-- `\b(alt₁|…|altₙ)\b` presence at a position; all alternatives start
and end with word characters. -/
def segAltsAt (altSegs : List (List Seg)) (prev : Option Char) (s : List Char) : Bool :=
  !isWordO prev && altSegs.any (fun segs => (matchSegs segs s).any wordEnd)

def searchSegAlts (altSegs : List (List Seg)) (s : List Char) : Bool :=
  searchB (segAltsAt altSegs) s

/-- `\b(verb…)\b.*\b(noun…)\b` presence: a verb alternative with word
boundaries, then any characters except a newline, then a noun
alternative with word boundaries.  The character preceding the noun
scan start is the verb's final letter, always a word character, which
`some 'x'` stands for. -/
def verbThenNoun (verbs nouns : List String) (t : List Char) : Bool :=
  searchB (fun prev r =>
    !isWordO prev &&
    verbs.any (fun v =>
      match litIL v.data r with
      | some r2 =>
        wordEnd r2 &&
        scanB (fun p2 r3 =>
          !isWordO p2 && nouns.any (fun n2 =>
            match litIL n2.data r3 with
            | some r4 => wordEnd r4
            | none => false))
          (some 'x') (r2.takeWhile (fun c => c ≠ nlCh))
      | none => false)) t

/-- Digits with greedy length at most `maxL`, backtracking on a
trailing `\b`; returns the captured value. -/
def natOfDigits (ds : List Char) : Nat :=
  ds.foldl (fun a c => a * 10 + (c.toNat - 48)) 0

def digitCapB (maxL : Nat) (s : List Char) : Option Nat :=
  let run := (s.takeWhile isDigitCh).take maxL
  (List.range run.length).findSome? (fun i =>
    let len := run.length - i
    if len ≠ 0 ∧ wordEnd (s.drop len) then some (natOfDigits (run.take len))
    else none)

def natDigitsAux : Nat → Nat → List Char
  | 0, _ => []
  | fuel + 1, n =>
    if n < 10 then [Char.ofNat (48 + n)]
    else natDigitsAux fuel (n / 10) ++ [Char.ofNat (48 + n % 10)]

def natToStrL (n : Nat) : List Char := natDigitsAux (n + 1) n

/-- Whitespace-run split (`str.split()`), accumulator form. -/
def wsSplitAux : List Char → List Char → List (List Char)
  | acc, [] => if acc = [] then [] else [acc.reverse]
  | acc, c :: cs =>
    if isSp c then
      (if acc = [] then wsSplitAux [] cs else acc.reverse :: wsSplitAux [] cs)
    else wsSplitAux (c :: acc) cs

def wsTokens (s : List Char) : List (List Char) := wsSplitAux [] s

/-- `re.sub(r"\s+", " ", s).strip()`. -/
def collapseWs (s : List Char) : List Char :=
  List.intercalate [' '] (wsTokens s)

/-- Replace every match of `m` (which consumes at least one
character and reports its final character for subsequent `\b` tests)
by `repl`, scanning left to right without rescanning replacements
(`re.sub`).  Fuel bounds the recursion by the input length. -/
def subAllF (m : Option Char → List Char → Option (Char × List Char))
    (repl : List Char) : Nat → Option Char → List Char → List Char
  | 0, _, s => s
  | _ + 1, _, [] => []
  | n + 1, prev, c :: cs =>
    match m prev (c :: cs) with
    | some (lc, rest) => repl ++ subAllF m repl n (some lc) rest
    | none => c :: subAllF m repl n (some c) cs

def subAll (m : Option Char → List Char → Option (Char × List Char))
    (repl : List Char) (s : List Char) : List Char :=
  subAllF m repl (s.length + 1) none s

/-- Single-word matcher `\bw\b` for `subAll`; `w` consists of word
characters. -/
def wordAt (w : String) : Option Char → List Char → Option (Char × List Char) :=
  fun prev s =>
    if isWordO prev then none
    else
      match litL w.data s with
      | some r => if wordEnd r then some (w.data.getLastD 'x', r) else none
      | none => none

/-! ## Guardrail-engine text predicates (`apply_guardrails`) -/

/-- `confirm_regex` (re.I):
`\b(confirm(ar|o|ado|ame|emos)?|factur(a|á|ar)|emit(ir|í)\s+(la\s+)?(factura|comprobante)|cerr(ar|á)\s+venta)\b`. -/
def confirmRegexS (t : String) : Bool :=
  searchSegAlts
    [ [.alts ["confirmar", "confirmo", "confirmado", "confirmame", "confirmemos", "confirm"]],
      [.alts ["factura", "facturá", "facturar"]],
      [.lit "emit", .alts ["ir", "í"], .sp1, .lit "la", .sp1, .alts ["factura", "comprobante"]],
      [.lit "emit", .alts ["ir", "í"], .sp1, .alts ["factura", "comprobante"]],
      [.alts ["cerrar", "cerrá"], .sp1, .lit "venta"] ] t.data

/-- `clear_regex` (re.I):
`\b(vacia(?:r)?|vaciar|limpia(?:r)?|limpiar|borra(?:r)?)\b.*\bcarrito\b`. -/
def clearRegexS (t : String) : Bool :=
  verbThenNoun ["vaciar", "vacia", "limpiar", "limpia", "borrar", "borra"]
    ["carrito"] t.data

/-- `remove_regex` (re.I):
`\b(borra(?:r)?|elimina(?:r)?|saca(?:r)?|quita(?:r)?)\b.*\b(item|ítem|producto|artículo|carrito)\b`. -/
def removeRegexS (t : String) : Bool :=
  verbThenNoun ["borrar", "borra", "eliminar", "elimina", "sacar", "saca", "quitar", "quita"]
    ["item", "ítem", "producto", "artículo", "carrito"] t.data

/-- `remove_last_regex` (re.I): `\b(últim[oa]?|ultimo|lo\s+último|final)\b`. -/
def removeLastRegexS (t : String) : Bool :=
  searchSegAlts
    [ [.alts ["último", "última", "últim"]],
      [.lit "ultimo"],
      [.lit "lo", .sp1, .lit "último"],
      [.lit "final"] ] t.data

/-- `search_only_regex` (re.I):
`\b(busca(?:r|me)?|buscame|buscar|mostra(?:r|me)?|mostrar|mostrame|quiero ver|mostrame algo|mostrame productos)\b`. -/
def searchOnlyRegexS (t : String) : Bool :=
  searchSegAlts
    [ [.alts ["buscar", "buscame", "busca"]],
      [.lit "buscame"], [.lit "buscar"],
      [.alts ["mostrar", "mostrame", "mostra"]],
      [.lit "mostrar"], [.lit "mostrame"],
      [.lit "quiero ver"],
      [.lit "mostrame algo"], [.lit "mostrame productos"] ] t.data

/-- `mode_explicit_regex` (re.I):
`\bmodo\s+(factura|presupuesto|remito)\b|\b(pasar|pon(e|er)|cambiar)\s+a\s+modo\s+(factura|presupuesto|remito)\b`. -/
def modeExplicitRegexS (t : String) : Bool :=
  searchSegAlts
    [ [.lit "modo", .sp1, .alts ["factura", "presupuesto", "remito"]],
      [.alts ["pasar", "pone", "poner", "cambiar"], .sp1, .lit "a", .sp1,
       .lit "modo", .sp1, .alts ["factura", "presupuesto", "remito"]] ] t.data

/-- `pay_intent_regex` (re.I):
`\b(pag(a|ar|ame)|cobr(a|ar|ame)|efectivo|tarjeta|d[eé]bito|cr[eé]dito|transferencia|qr|mercado\s*pago|mp|pago)\b`. -/
def payIntentRegexS (t : String) : Bool :=
  searchSegAlts
    [ [.alts ["paga", "pagar", "pagame"]],
      [.alts ["cobra", "cobrar", "cobrame"]],
      [.lit "efectivo"], [.lit "tarjeta"],
      [.alts ["debito", "débito"]],
      [.alts ["credito", "crédito"]],
      [.lit "transferencia"], [.lit "qr"],
      [.lit "mercado", .sp0, .lit "pago"],
      [.lit "mp"], [.lit "pago"] ] t.data

/-- `\bcarrito\b` (re.I) over the raw text. -/
def carritoRawS (t : String) : Bool :=
  searchSegAlts [[.lit "carrito"]] t.data

/-- The guardrail engine's local `parse_index_from_text`: lowers the
text, then `\b(?:í?tem|n[úu]mero|num|el)\s+(\d{1,3})\b`, else a bare
`\b(\d{1,3})\b` when `\bcarrito\b` occurs. -/
def parseIndexG (t : String) : Option Nat :=
  let low := pyLowerL t.data
  let kw := searchO (fun prev s =>
    if isWordO prev then none
    else
      ["ítem", "tem", "número", "numero", "num", "el"].findSome? (fun k =>
        match litL k.data s with
        | some r =>
          match r with
          | c :: _ => if isSp c then digitCapB 3 (r.dropWhile isSp) else none
          | [] => none
        | none => none)) low
  match kw with
  | some n => some n
  | none =>
    if searchSegAlts [[.lit "carrito"]] low then
      searchO (fun prev s =>
        if isWordO prev then none else digitCapB 3 s) low
    else none

/-! ## Search-term cleaning (guardrail G) -/

/-- `\b(por\s*fa(?:vor|)|porfis)\b` at a position (re.I), reporting
the match's final character and the remainder. -/
def porfaAt (prev : Option Char) (s : List Char) : Option (Char × List Char) :=
  if isWordO prev then none
  else
    match litIL "por".data s with
    | some r1 =>
      let r2 := r1.dropWhile isSp
      match litIL "fa".data r2 with
      | some r3 =>
        match litIL "vor".data r3 with
        | some r4 => if wordEnd r4 then some ('r', r4) else none
        | none => if wordEnd r3 then some ('a', r3) else none
      | none =>
        match litIL "porfis".data s with
        | some r => if wordEnd r then some ('s', r) else none
        | none => none
    | none =>
      match litIL "porfis".data s with
      | some r => if wordEnd r then some ('s', r) else none
      | none => none

/-- Replace every character outside `keep` with a space.  The source
replaces a *run* of such characters with one space; both agree after
whitespace collapsing, which always follows, and for a single-char
class they agree exactly. -/
def clsToSpace (keep : Char → Bool) (s : List Char) : List Char :=
  s.map (fun c => if keep c then c else ' ')

/-- Guardrail G's term rewrite:
`re.sub(r'(^\s*(a|al|la|el)\s+)|\b(por\s*fa(?:vor|)|porfis)\b', ' ', term, re.I)`,
then `re.sub(r'[^\w\s/"]+', ' ', term)`, then whitespace collapse and
strip.  The anchored article alternative can only fire at position 0. -/
def termClean (s : List Char) : List Char :=
  let t0 := s.dropWhile isSp
  let afterArt : Option (List Char) :=
    ["a", "al", "la", "el"].findSome? (fun (w : String) =>
      match litIL w.data t0 with
      | some r =>
        match r with
        | c :: _ => if isSp c then some (r.dropWhile isSp) else none
        | [] => none
      | none => none)
  let s1 :=
    match afterArt with
    | some r => ' ' :: subAll porfaAt [' '] r
    | none => subAll porfaAt [' '] s
  let s2 := clsToSpace (fun c => isWordCh c || isSp c || c = '/' || c = '"') s1
  collapseWs s2

/-! ## Normalizer (`normalize_es` and helpers) -/

/-- `_normalize_quotes_punct`: glyph-for-glyph replacement table. -/
def quoteCh (c : Char) : List Char :=
  if c = '½' then "1/2".data else if c = '¼' then "1/4".data
  else if c = '¾' then "3/4".data
  else if c = '”' then ['"'] else if c = '“' then ['"']
  else if c = '″' then ['"'] else if c = '′' then [Char.ofNat 39]
  else if c = 'º' then [] else if c = '°' then []
  else [c]

def normalizeQuotes (s : List Char) : List Char := s.flatMap quoteCh

/-- `strip_accents(s).lower()` over the modelled character range. -/
def stripLower (s : List Char) : List Char :=
  s.map (fun c => lowerCh (stripAccentCh c))

/-- Integer entries of `_NUM_MAP` (the two fractional entries
`media`/`medio` ↦ 0.5 are handled separately where the source renders
them as `"0.5"`). -/
def numWordVal : List (String × Nat) :=
  [("cero", 0), ("uno", 1), ("una", 1), ("dos", 2), ("tres", 3), ("cuatro", 4),
   ("cinco", 5), ("seis", 6), ("siete", 7), ("ocho", 8), ("nueve", 9),
   ("diez", 10), ("once", 11), ("doce", 12), ("trece", 13), ("catorce", 14),
   ("quince", 15), ("dieciseis", 16), ("dieciséis", 16), ("diecisiete", 17),
   ("dieciocho", 18), ("diecinueve", 19), ("veinte", 20), ("veintiuno", 21),
   ("veintidos", 22), ("veintidós", 22), ("veintitres", 23), ("veintitrés", 23),
   ("veinticuatro", 24), ("veinticinco", 25), ("veintiseis", 26),
   ("veintiséis", 26), ("veintisiete", 27), ("veintiocho", 28),
   ("veintinueve", 29), ("treinta", 30), ("cuarenta", 40), ("cincuenta", 50),
   ("sesenta", 60), ("setenta", 70), ("ochenta", 80), ("noventa", 90)]

/-- `_words_to_number_simple` on a whitespace-split token, already
rendered as the source renders it (`str(int(val))`, or `"0.5"` for the
fractional entries).  The compound `"decena y unidad"` branch cannot
fire on a space-free token and the corresponding forms are handled by
the phrase substitutions. -/
def spelledTokenRepl (t : List Char) : List Char :=
  let ts : String := ⟨t⟩
  match (numWordVal.find? (fun kv => kv.1 == ts)).map (fun kv => kv.2) with
  | some n => natToStrL n
  | none => if ts == "media" || ts == "medio" then "0.5".data else t

/-- `\b…\b` segment-alternative matcher for `subAll`. -/
def segSubAt (altSegs : List (List Seg)) :
    Option Char → List Char → Option (Char × List Char) :=
  fun prev s =>
    if isWordO prev then none
    else altSegs.findSome? (fun segs =>
      (matchSegs segs s).findSome? (fun r =>
        if wordEnd r then
          some ((s.take (s.length - r.length)).getLastD 'x', r)
        else none))

def ordWords : List (String × Nat) :=
  [("primero", 1), ("segundo", 2), ("tercero", 3), ("cuarto", 4), ("quinto", 5)]

def decWords : List (String × Nat) :=
  [("treinta", 30), ("cuarenta", 40), ("cincuenta", 50), ("sesenta", 60),
   ("setenta", 70), ("ochenta", 80), ("noventa", 90)]

def uniWords : List (String × Nat) :=
  [("uno", 1), ("una", 1), ("dos", 2), ("tres", 3), ("cuatro", 4), ("cinco", 5),
   ("seis", 6), ("siete", 7), ("ocho", 8), ("nueve", 9)]

/-- `_replace_spelled_numbers`: phrase substitutions on `" text "`,
ordinal substitutions, compound-decade substitutions, then the
token-by-token map with whitespace-collapsing join. -/
def replaceSpelledNumbers (text : List Char) : List Char :=
  let s := ' ' :: text ++ [' ']
  let s := subAll (segSubAt [[.lit "tres", .sp1, .lit "cuartos"]]) " 3/4 ".data s
  let s := subAll (segSubAt [[.lit "un", .sp1, .lit "cuarto"]]) " 1/4 ".data s
  let s := subAll (segSubAt [[.alts ["media", "medio"], .sp1, .lit "pulgada", .opt ["s"]]])
    " 1/2 in ".data s
  let s := ordWords.foldl (fun s1 w =>
    subAll (wordAt w.1) (' ' :: natToStrL w.2 ++ [' ']) s1) s
  let s := decWords.foldl (fun s1 d =>
    uniWords.foldl (fun s2 u =>
      subAll (segSubAt [[.lit d.1, .sp1, .lit "y", .sp1, .lit u.1]])
        (' ' :: natToStrL (d.2 + u.2) ++ [' ']) s2) s1) s
  List.intercalate [' '] ((wsTokens s).map spelledTokenRepl)

/-- The normalizer's character filter `re.sub(r'[^a-z0-9/.\s"\'-]', " ", s)`
(a single-character class, so per-character replacement is exact). -/
def charsetFilter (s : List Char) : List Char :=
  clsToSpace (fun c =>
    ('a' ≤ c && c ≤ 'z') || isDigitCh c || c = '/' || c = '.' || isSp c ||
    c = '"' || c = Char.ofNat 39 || c = '-') s

/-- The phonetic corrections `canon`/`canyo`/`cano` → `" caño "`. -/
def phoneticFix (s : List Char) : List Char :=
  let s := subAll (wordAt "canon") " caño ".data s
  let s := subAll (wordAt "canyo") " caño ".data s
  subAll (wordAt "cano") " caño ".data s

/-- `\b(\d{1,3})\s*mm\b` capture. -/
def mmOf (s : List Char) : Option Nat :=
  searchO (fun prev r =>
    if isWordO prev then none
    else
      let run := (r.takeWhile isDigitCh).take 3
      (List.range run.length).findSome? (fun i =>
        let len := run.length - i
        let rest := (r.drop len).dropWhile isSp
        match litL "mm".data rest with
        | some r2 => if wordEnd r2 then some (natOfDigits (run.take len)) else none
        | none => none)) s

/-- `\b(1/4|1/2|3/4)\b` capture via the source's `frac_map`. -/
def fracOf (s : List Char) : Option Rat :=
  searchO (fun prev r =>
    if isWordO prev then none
    else
      [("1/4", mkRat 1 4), ("1/2", mkRat 1 2), ("3/4", mkRat 3 4)].findSome?
        (fun (pr : String × Rat) =>
          match litL pr.1.data r with
          | some r2 => if wordEnd r2 then some pr.2 else none
          | none => none)) s

/-- `\b` after a known final character. -/
def bdyAfter (last : Char) (rest : List Char) : Bool :=
  isWordCh last != (match rest with | c :: _ => isWordCh c | [] => false)

/-- `\b(\d+(?:\.\d+)?)\s*(in|pulg|pulgadas|")\b` capture; the float
value is modelled as the exact rational. -/
def inchDecOf (s : List Char) : Option Rat :=
  searchO (fun prev r =>
    if isWordO prev then none
    else
      let intRun := r.takeWhile isDigitCh
      if intRun = [] then none
      else
        let tryUnit : List Char → Rat → Option Rat := fun rest v =>
          let rest' := rest.dropWhile isSp
          ["in", "pulg", "pulgadas", "\""].findSome? (fun (u : String) =>
            match litL u.data rest' with
            | some r2 =>
              if bdyAfter (u.data.getLastD 'x') r2 then some v else none
            | none => none)
        let afterInt := r.drop intRun.length
        let withFrac : Option Rat :=
          match afterInt with
          | '.' :: rest2 =>
            let fr := rest2.takeWhile isDigitCh
            if fr = [] then none
            else
              tryUnit (rest2.drop fr.length)
                ((natOfDigits intRun : Rat) +
                  mkRat (natOfDigits fr) ((10 : Nat) ^ fr.length))
          | _ => none
        match withFrac with
        | some v => some v
        | none => tryUnit afterInt ((natOfDigits intRun : Rat))) s

/-- Result of `normalize_es`: normalized text, tokens, extracted
units. -/
structure NormRes where
  text : String
  tokens : List String
  mm : Option Nat
  inch : Option Rat
deriving DecidableEq, Repr

/-- The normalizer's text pipeline (quotes, accents + lowering,
spelled numbers, character filter, whitespace collapse, phonetic
corrections), in source order. -/
def normCore (s : List Char) : List Char :=
  phoneticFix (collapseWs (charsetFilter (replaceSpelledNumbers
    (stripLower (normalizeQuotes s)))))

/-- `normalize_es`. -/
def normalizeEs (text : String) : NormRes :=
  if text = "" then ⟨"", [], none, none⟩
  else
    let s := normCore text.data
    let inch := match fracOf s with
      | some v => some v
      | none => inchDecOf s
    ⟨⟨s⟩, ((s.splitOn ' ').filter (fun t => t ≠ [])).map (fun t => (⟨t⟩ : String)),
      mmOf s, inch⟩

/-! ## Guardrail engine (`apply_guardrails`)

The engine is a pipeline of stages over the candidate list.  The only
stage that can raise (out of the per-candidate `try` of stage 0) is
the search-term rewrite, when a surviving `term`/`query` value is a
truthy non-string; `apply_guardrails` is therefore embedded in
`Except`, with `interpret` catching the error exactly as the source's
`try/except` fallback does. -/

/-- `_coerce_params`: scalar values (and JSON-round-trippable values)
are kept; non-serializable values are dropped. -/
def coerceParams (ps : Params) : Params :=
  (ps : List (String × PVal)).filter (fun kv => !(kv.2 == PVal.bad))

/-- Stage 0 for one candidate: whitelist check on a string `action`,
parameter coercion, and the `search` `query`→`term` rename (`pop`
removes the key; the assignment appends `term`, which is absent). -/
def sanitizeOne (allowed : List String) (c : Cand) : Option Action :=
  match c.action with
  | .str n =>
    if allowed.contains n then
      let ps := coerceParams c.params
      let ps :=
        if n == "search" && pHas ps "query" && !pHas ps "term" then
          pErase ps "query" ++ [("term", (pGet ps "query").getD .null)]
        else ps
      some ⟨n, ps⟩
    else none
  | _ => none

def stage0 (allowed : List String) (cands : List Cand) : List Action :=
  cands.filterMap (sanitizeOne allowed)

def dropName (nm : String) (l : List Action) : List Action :=
  l.filter (fun a => !(a.action == nm))

/-- Shared shape of guardrails A, C, D, E, H, I: drop all instances of
an action unless its explicit-intent regex matched. -/
def stageGate (cond : Bool) (nm : String) (l : List Action) : List Action :=
  if cond then l else dropName nm l

/-- Guardrail A: `confirm_document` only on explicit confirmation text. -/
def stageA (t : String) (l : List Action) : List Action :=
  stageGate (confirmRegexS t) "confirm_document" l

/-- The `index` param of the first `select_index` action; Python's
`dict.get` makes a stored `null` indistinguishable from a missing
key. -/
def firstSelIdxVal (l : List Action) : Option PVal :=
  match l.find? (fun a => a.action == "select_index") with
  | some a =>
    match pGet a.params "index" with
    | some .null => none
    | some v => some v
    | none => none
  | none => none

/-- The stage-B validity test `bool(idx) and 1 <= int(idx) <= results_len`
(a raised `int()` yields `False`). -/
def idxOkOn (st : ConvState) (l : List Action) : Bool :=
  let idxV : Option PVal :=
    match firstSelIdxVal l with
    | some v => some v
    | none => st.selected_index.map PVal.int
  match idxV with
  | none => false
  | some v =>
    pyTruthy v &&
      (match pyInt v with
       | some n => decide (1 ≤ n) && decide (n ≤ (st.results.length : Int))
       | none => false)

/-- Guardrail B: `add_to_cart` requires a prior selection, and the
available index must lie within `[1, len(results)]`. -/
def stageB (st : ConvState) (l : List Action) : List Action :=
  let hasSel := l.any (fun a => a.action == "select_index")
  let selTru := truthyOptInt st.selected_index
  let l1 := if !hasSel && !selTru then dropName "add_to_cart" l else l
  if l1.any (fun a => a.action == "add_to_cart") then
    if idxOkOn st l1 then l1 else dropName "add_to_cart" l1
  else l1

/-- Guardrail G's per-action rewrite.  `params.pop("query",
params.get("term", ""))` takes (and removes) a present `query` value,
else the `term` value; a falsy value becomes `""`; `re.sub` on a
truthy non-string raises. -/
def rewriteSearch (a : Action) : Except Unit Action :=
  if a.action == "search" then
    let pr :=
      if pHas a.params "query" then
        ((pGet a.params "query").getD .null, pErase a.params "query")
      else ((pGet a.params "term").getD (.str ""), a.params)
    let tv := if pyTruthy pr.1 then pr.1 else .str ""
    match tv with
    | .str s => .ok ⟨a.action, pSet pr.2 "term" (.str ⟨termClean s.data⟩)⟩
    | _ => .error ()
  else .ok a

/-- Guardrail G: a search-trigger phrase forces the result set to
contain only `search` actions, each with a cleaned `term`. -/
def stageG (t : String) (l : List Action) : Except Unit (List Action) :=
  if searchOnlyRegexS t then
    (l.filter (fun a => a.action == "search")).mapM rewriteSearch
  else .ok l

/-- Guardrail J's per-element override `params["index"] = int(idx)`. -/
def jOne (i : Nat) (a : Action) : Action :=
  if a.action == "remove_from_cart" then
    ⟨a.action, pSet a.params "index" (.int (i : Int))⟩
  else a

/-- Guardrail J: a textual index (with `carrito` present) overrides
the `index` param of every `remove_from_cart` (`0` is falsy and does
not trigger). -/
def stageJ (t : String) (l : List Action) : List Action :=
  match parseIndexG t with
  | some i =>
    if carritoRawS t && i ≠ 0 then l.map (jOne i)
    else l
  | none => l

def askRangeQ (cartLen : Nat) : Action :=
  ⟨"ask_user",
    [("question", .str ⟨"¿Qué ítem del carrito querés borrar? Decime un número del 1 al ".data
        ++ natToStrL cartLen ++ ".".data⟩)]⟩

def askIdxNameQ : Action :=
  ⟨"ask_user",
    [("question", .str "¿Cuál ítem del carrito querés borrar? Decime un índice (1..N) o el nombre.")]⟩

/-- Cart-bounds enforcement for one action.  `int(params.get("index")
or 0)` turns a missing / falsy index into `0`; a raised `int()` gives
`i = None` and falls to the name branch, as does an empty cart. -/
def stage5One (cartLen : Nat) (a : Action) : Action :=
  if a.action == "remove_from_cart" then
    let iv0 := (pGet a.params "index").getD .null
    let iv := if pyTruthy iv0 then iv0 else .int 0
    let nameBranch :=
      if pyTruthy ((pGet a.params "name").getD .null) then a else askIdxNameQ
    match pyInt iv with
    | some i =>
      if cartLen > 0 then
        if 1 ≤ i ∧ i ≤ (cartLen : Int) then a else askRangeQ cartLen
      else nameBranch
    | none => nameBranch
  else a

def stage5 (st : ConvState) (l : List Action) : List Action :=
  l.map (stage5One st.cart.length)

/-- `apply_guardrails`, stage by stage in source order. -/
def applyGuardrailsE (userText : String) (st : ConvState) (allowed : List String)
    (cands : List Cand) : Except Unit (List Action) :=
  let t := pyStrip userText
  let l := stage0 allowed cands
  let l := stageA t l
  let l := stageB st l
  let l := stageGate (clearRegexS t) "clear_cart" l
  let l := stageGate (removeRegexS t) "remove_from_cart" l
  let l := stageGate (removeLastRegexS t) "remove_last_item" l
  match stageG t l with
  | .error e => .error e
  | .ok l2 =>
    let l3 := stageGate (modeExplicitRegexS t) "set_mode" l2
    let l4 := stageGate (payIntentRegexS t) "set_payment" l3
    let l5 := stageJ t l4
    .ok (stage5 st l5)

/-! ## Fast path (`parse_index_from_text`, `parse_qty_ops`,
`deterministic_fastpath`); these matchers run on the normalized
(lower-case, accent-stripped) text -/

/-- `\d+` followed by `\b` (greedy; no shorter run can satisfy the
boundary since the next character would be a digit). -/
def digitCapUB (s : List Char) : Option Nat :=
  let run := s.takeWhile isDigitCh
  if run ≠ [] ∧ wordEnd (s.drop run.length) then some (natOfDigits run) else none

/-- The normalizer-side `parse_index_from_text`:
`\bitem[s]?\s*(numero\s*)?(\d+)\b`, else `\bel\s*(\d+)\b`. -/
def parseIndexN (t : List Char) : Option Nat :=
  let p1 := searchO (fun prev s =>
    if isWordO prev then none
    else
      match litL "item".data s with
      | some r0 =>
        let r1 := match litL "s".data r0 with
          | some r => r
          | none => r0
        let r2 := r1.dropWhile isSp
        let withNum :=
          match litL "numero".data r2 with
          | some r3 => digitCapUB (r3.dropWhile isSp)
          | none => none
        match withNum with
        | some v => some v
        | none => digitCapUB r2
      | none => none) t
  match p1 with
  | some v => some v
  | none =>
    searchO (fun prev s =>
      if isWordO prev then none
      else
        match litL "el".data s with
        | some r => digitCapUB (r.dropWhile isSp)
        | none => none) t

/-- Keyword alternatives followed by `\s*(\d+)\b` (shared shape of the
`parse_qty_ops` patterns). -/
def kwNumCap (kws : List String) (t : List Char) : Option Nat :=
  searchO (fun prev s =>
    if isWordO prev then none
    else kws.findSome? (fun (w : String) =>
      match litL w.data s with
      | some r => digitCapUB (r.dropWhile isSp)
      | none => none)) t

/-- `\b(agregado|agrega(?:r|do)?|puesto|pone(?:r|do)?)\s*a\s*(\d+)\b`. -/
def qtySetCap (t : List Char) : Option Nat :=
  searchO (fun prev s =>
    if isWordO prev then none
    else
      ["agregado", "agregar", "agregado", "agrega", "puesto", "poner", "ponedo", "pone"].findSome?
        (fun (w : String) =>
          match litL w.data s with
          | some r =>
            match litL "a".data (r.dropWhile isSp) with
            | some r2 => digitCapUB (r2.dropWhile isSp)
            | none => none
          | none => none)) t

/-- `\ba\s*(\d+)\s*unidades?\b`. -/
def qtyUnCap (t : List Char) : Option Nat :=
  searchO (fun prev s =>
    if isWordO prev then none
    else
      match litL "a".data s with
      | some r =>
        let run := (r.dropWhile isSp).takeWhile isDigitCh
        if run = [] then none
        else
          let rest := ((r.dropWhile isSp).drop run.length).dropWhile isSp
          match litL "unidade".data rest with
          | some r2 =>
            match litL "s".data r2 with
            | some r3 => if wordEnd r3 then some (natOfDigits run) else
                if wordEnd r2 then some (natOfDigits run) else none
            | none => if wordEnd r2 then some (natOfDigits run) else none
          | none => none
      | none => none) t

/-- `\b(agrega|agregar|pone|poner|sumar)\b.*\b(\d+)\b`: the greedy
`.*` makes the capture the last bounded number after the verb. -/
def scanLastO {α : Type} (f : Option Char → List Char → Option α) :
    Option Char → List Char → Option α → Option α
  | prev, [], acc =>
    match f prev [] with
    | some v => some v
    | none => acc
  | prev, c :: cs, acc =>
    scanLastO f (some c) cs
      (match f prev (c :: cs) with
       | some v => some v
       | none => acc)

def qtyAddVerbCap (t : List Char) : Option Nat :=
  searchO (fun prev s =>
    if isWordO prev then none
    else
      ["agrega", "agregar", "pone", "poner", "sumar"].findSome? (fun (w : String) =>
        match litL w.data s with
        | some r =>
          if wordEnd r then
            scanLastO (fun p2 r2 =>
              if isWordO p2 then none else digitCapUB r2)
              (some 'x') (r.takeWhile (fun c => c ≠ nlCh)) none
          else none
        | none => none)) t

/-- `parse_qty_ops`: `(qty_abs, delta_plus, delta_minus)`. -/
def parseQtyOps (t : List Char) : Option Nat × Option Nat × Option Nat :=
  let qa0 := kwNumCap ["cantidad", "dejalo en", "deja en", "poner cantidad",
    "pone cantidad", "pone en", "ajusta a", "ajustar a"] t
  let qa1 := match qa0 with
    | some _ => qa0
    | none => qtySetCap t
  let qa2 := match qa1 with
    | some _ => qa1
    | none => qtyUnCap t
  let dp := kwNumCap ["sumale", "agregale", "aumenta", "subi", "subile", "sumar", "agregar"] t
  let dm := kwNumCap ["sacale", "quitale", "disminui", "baja", "bajale", "restale", "restar"] t
  let qa := match qa2 with
    | some _ => qa2
    | none => qtyAddVerbCap t
  (qa, dp, dm)

/-- The fast path's confirmation pattern
`\b(confirm(ar|o|ado|ame|emos)?|factur(a|ar|á)|cerr(ar|á)\s*venta)\b` (re.I);
note `\s*` (the guardrail pattern has `\s+`). -/
def confirmFastRegexS (t : List Char) : Bool :=
  searchSegAlts
    [ [.alts ["confirmar", "confirmo", "confirmado", "confirmame", "confirmemos", "confirm"]],
      [.alts ["factura", "facturar", "facturá"]],
      [.alts ["cerrar", "cerrá"], .sp0, .lit "venta"] ] t

def efectivoRegexS (t : List Char) : Bool :=
  searchSegAlts [[.lit "efectivo"], [.lit "cash"]] t

def transferRegexS (t : List Char) : Bool :=
  searchSegAlts [[.lit "transferencia"], [.lit "transferencias"]] t

def tarjCredRegexS (t : List Char) : Bool :=
  searchSegAlts [[.lit "tarjeta", .sp1, .alts ["credito", "crédito"]]] t

def tarjDebRegexS (t : List Char) : Bool :=
  searchSegAlts [[.lit "tarjeta", .sp1, .alts ["debito", "débito"]]] t

/-- `\bmodo\s+(presupuesto|factura|remito)\b` capture. -/
def modoCap (t : List Char) : Option String :=
  searchO (fun prev s =>
    if isWordO prev then none
    else
      match litL "modo".data s with
      | some r1 =>
        match r1 with
        | c :: _ =>
          if isSp c then
            ["presupuesto", "factura", "remito"].findSome? (fun (w : String) =>
              match litL w.data (r1.dropWhile isSp) with
              | some r2 => if wordEnd r2 then some w else none
              | none => none)
          else none
        | [] => none
      | none => none) t

def buscaRegexS (t : List Char) : Bool :=
  searchSegAlts
    [ [.alts ["buscar", "busca"]], [.lit "buscame"],
      [.alts ["mostrar", "mostra"]], [.lit "mostrame"] ] t

/-- `re.sub(r"^\s*(busca[r]?|buscame|mostra[r]?|mostrame)\s*[:,-]?\s*", "", ntext)`
(the anchored pattern fires at most once; no word boundary, so
e.g. `buscame` loses only its `busca` prefix, as in the source). -/
def stripSearchVerb (t : List Char) : List Char :=
  let t0 := t.dropWhile isSp
  match ["buscar", "busca", "buscame", "mostrar", "mostra", "mostrame"].findSome?
      (fun (w : String) => litL w.data t0) with
  | some r =>
    let r1 := r.dropWhile isSp
    let r2 :=
      match r1 with
      | c :: cs => if c = ':' || c = ',' || c = '-' then cs else r1
      | [] => r1
    r2.dropWhile isSp
  | none => t

def ultimoRegexS (t : List Char) : Bool :=
  searchSegAlts [[.lit "ultimo"], [.lit "último"], [.lit "final"]] t

def addVerbRegexS (t : List Char) : Bool :=
  searchSegAlts
    [ [.alts ["agregar", "agrega"]], [.lit "agregado"], [.lit "sumar"],
      [.lit "agregame"], [.lit "añadir"], [.lit "poner"] ] t

/-- `\s+del\s+carrito\b` test at a position (suffix of the
name-capture pattern). -/
def delCarritoAt (s : List Char) : Bool :=
  match s with
  | c :: _ =>
    isSp c &&
      (match litL "del".data (s.dropWhile isSp) with
       | some r =>
         (match r with
          | c2 :: _ =>
            isSp c2 &&
              (match litL "carrito".data (r.dropWhile isSp) with
               | some r2 => wordEnd r2
               | none => false)
          | [] => false)
       | none => false)
  | [] => false

/-- The greedy `(.+)` of the name-capture pattern: the longest
newline-free nonempty prefix followed by `\s+del\s+carrito\b`. -/
def nameGreedy (r3 : List Char) : Option (List Char) :=
  (List.range r3.length).findSome? (fun i =>
    let k := r3.length - i
    if k ≥ 1 ∧ delCarritoAt (r3.drop k) ∧ !(r3.take k).contains nlCh then
      some (r3.take k)
    else none)

/-- `\b(?:borra(?:r)?|saca(?:r)?|quita(?:r)?)\s+(?:el|la)?\s*(.+)\s+del\s+carrito\b`
capture (leftmost verb; the optional article backtracks). -/
def removeNameCap (t : List Char) : Option (List Char) :=
  searchO (fun prev s =>
    if isWordO prev then none
    else
      ["borrar", "borra", "sacar", "saca", "quitar", "quita"].findSome?
        (fun (v : String) =>
          match litL v.data s with
          | some r1 =>
            match r1 with
            | c :: _ =>
              if isSp c then
                let r2 := r1.dropWhile isSp
                ((["el", "la"].filterMap (fun (w : String) => litL w.data r2)) ++ [r2]).findSome?
                  (fun r3 => nameGreedy (r3.dropWhile isSp))
              else none
            | [] => none
          | none => none)) t

def truthyS : Option String → Bool
  | some s => s ≠ ""
  | none => false

/-- Python `needle in hay` substring test. -/
def infixLit (needle hay : List Char) : Bool :=
  searchB (fun _ s => (litL needle s).isSome) hay

/-- Truthiness of an optional parsed number (`0` and `None` falsy). -/
def optNatTruthy : Option Nat → Bool
  | some n => n ≠ 0
  | none => false

/-- `row.get("item_code") or row.get("code") or row.get("name")`. -/
def rowKey (item_code code name : Option String) : Option String :=
  if truthyS item_code then item_code
  else if truthyS code then code
  else name

/-- `item_code_from_index` (falsy or out-of-range indices give
`None`). -/
def itemCodeFromIndex (results : List Row) (i : Option Int) : Option String :=
  match i with
  | none => none
  | some n =>
    if n = 0 then none
    else if 1 ≤ n ∧ n ≤ (results.length : Int) then
      match results.get? (n - 1).toNat with
      | some row => rowKey row.item_code row.code row.name
      | none => none
    else none

/-- `current_qty_for_item_code`: the first cart line whose key equals
`code` and carries a quantity. -/
def currentQty (cart : List CartItem) (code : Option String) : Option Int :=
  match code with
  | none => none
  | some c =>
    if c = "" then none
    else
      cart.findSome? (fun it =>
        if rowKey it.item_code it.code it.name = some c then it.qty else none)

def askDeltaQ : Action :=
  ⟨"ask_user", [("question", .str "¿Sobre qué ítem aplico el cambio de cantidad?")]⟩

/-- `qty_hint = int(state.get("qty_hint") or 1)`: a stored falsy (0 /
absent) hint becomes 1. -/
def qtyHintOf (st : ConvState) : Int :=
  match st.qty_hint with
  | some n => if n ≠ 0 then n else 1
  | none => 1

/-- `target_index = idx if idx else state.get("selected_index")`. -/
def fpTargetIndex (idx : Option Nat) (st : ConvState) : Option Int :=
  if optNatTruthy idx then idx.map (fun i => (i : Int)) else st.selected_index

/-- The base for a relative quantity change: the current cart quantity
of the targeted row, else the quantity hint (clamped to ≥ 0 via the
`if` in the source). -/
def fpBaseQty (st : ConvState) (targetIndex : Option Int) : Int :=
  match currentQty st.cart (itemCodeFromIndex st.results targetIndex) with
  | some b => b
  | none => if qtyHintOf st ≥ 0 then qtyHintOf st else 1

/-- `deterministic_fastpath`: ordered deterministic rules; `none`
falls through to the planner. -/
def deterministicFastpath (userText : String) (st : ConvState)
    (allowed : List String) : Option (List Action) :=
  let ntext := (normalizeEs userText).text.data
  let idx := parseIndexN ntext
  let q := parseQtyOps ntext
  let qtyAbs := q.1
  let deltaPlus := q.2.1
  let deltaMinus := q.2.2
  if allowed.contains "confirm_document" && confirmFastRegexS ntext then
    some [⟨"confirm_document", []⟩]
  else if allowed.contains "set_payment" && efectivoRegexS ntext then
    some [⟨"set_payment", [("mop", .str "Cash")]⟩]
  else if allowed.contains "set_payment" && transferRegexS ntext then
    some [⟨"set_payment", [("mop", .str "Bank Draft")]⟩]
  else if allowed.contains "set_payment" && tarjCredRegexS ntext then
    some [⟨"set_payment", [("mop", .str "Credit Card")]⟩]
  else if allowed.contains "set_payment" && tarjDebRegexS ntext then
    some [⟨"set_payment", [("mop", .str "Debit Card")]⟩]
  else
    match (if allowed.contains "set_mode" then modoCap ntext else none) with
    | some m => some [⟨"set_mode", [("mode", .str ⟨pyUpperL m.data⟩)]⟩]
    | none =>
      let searchRes : Option (List Action) :=
        if allowed.contains "search" && buscaRegexS ntext then
          let term := pyStripL (stripSearchVerb ntext)
          if term ≠ [] then some [⟨"search", [("term", .str ⟨term⟩)]⟩] else none
        else none
      match searchRes with
      | some r => some r
      | none =>
        if infixLit "carrito".data ntext && ultimoRegexS ntext &&
            allowed.contains "remove_last_item" then
          some [⟨"remove_last_item", []⟩]
        else
          let tryName : Option (List Action) :=
            match removeNameCap ntext with
            | some nm0 =>
              let nm := pyStripL nm0
              if nm ≠ [] ∧ nm.length ≥ 2 then
                some [⟨"remove_from_cart", [("name", .str ⟨nm⟩)]⟩]
              else none
            | none => none
          let remRes : Option (List Action) :=
            if infixLit "carrito".data ntext && allowed.contains "remove_from_cart" then
              match idx with
              | some i =>
                if 1 ≤ i ∧ (i : Int) ≤ (st.cart.length : Int) then
                  some [⟨"remove_from_cart", [("index", .int (i : Int))]⟩]
                else tryName
              | none => tryName
            else none
          match remRes with
          | some r => some r
          | none =>
            let targetIndex : Option Int := fpTargetIndex idx st
            let acts0 : List Action :=
              if idx.isSome && allowed.contains "select_index" then
                [⟨"select_index", [("index", .int ((idx.getD 0 : Nat) : Int))]⟩]
              else []
            match qtyAbs with
            | some qa =>
              let acts1 := acts0 ++
                (if allowed.contains "set_qty" then
                  [⟨"set_qty", [("qty", .int (qa : Int))]⟩] else [])
              let acts2 := acts1 ++
                (if addVerbRegexS ntext && allowed.contains "add_to_cart" then
                  [⟨"add_to_cart", []⟩] else [])
              if acts2 = [] then none else some acts2
            | none =>
              if optNatTruthy deltaPlus || optNatTruthy deltaMinus then
                if !truthyOptInt targetIndex then
                  if allowed.contains "ask_user" then some [askDeltaQ] else none
                else
                  let base : Int := fpBaseQty st targetIndex
                  let newQty : Int :=
                    max 0 (base + ((deltaPlus.getD 0 : Nat) : Int) -
                      ((deltaMinus.getD 0 : Nat) : Int))
                  if allowed.contains "set_qty" then
                    let acts1 := acts0 ++
                      (if idx = none ∧ truthyOptInt st.selected_index ∧
                          allowed.contains "select_index" then
                        [⟨"select_index", [("index", .int (st.selected_index.getD 0))]⟩]
                      else [])
                    let acts2 := acts1 ++ [⟨"set_qty", [("qty", .int newQty)]⟩]
                    if acts2 = [] then none else some acts2
                  else none
              else none

/-! ## Catalog normalization (`_normalize_catalog` inside `interpret`) -/

/-- An element of a caller-supplied catalog list: a plain string, a
dict with an `action` key (whose `str()`-coerced value is taken), or
anything else (skipped). -/
inductive CatEntry where
  | strE (s : String)
  | actE (a : String)
  | otherE
deriving DecidableEq, Repr

/-- The caller-supplied catalog: absent/`None`, a list, a dict with an
`actions` list (a dict without a usable `actions` list is `objC []`),
or a free-text document with `- name(` lines. -/
inductive CatalogInput where
  | absent
  | listC (xs : List CatEntry)
  | objC (xs : List CatEntry)
  | textC (s : String)
deriving DecidableEq, Repr

/-- The hard-coded default action set substituted for an empty or
unusable catalog. -/
def defaultAllowed : List String :=
  ["set_mode", "search", "select_index", "set_qty", "add_to_cart",
   "set_global_discount", "set_customer", "set_payment",
   "confirm_document", "clear_cart", "repeat", "ask_user",
   "remove_from_cart", "remove_last_item"]

/-- Code-point lexicographic order (Python `sorted` on `str`). -/
def strLtL : List Char → List Char → Bool
  | [], [] => false
  | [], _ :: _ => true
  | _ :: _, [] => false
  | a :: as', b :: bs => if a.toNat < b.toNat then true
      else if b.toNat < a.toNat then false else strLtL as' bs

def strLt (a b : String) : Bool := strLtL a.data b.data

/-- Sorted-set insertion (`sorted(set)` accumulator). -/
def insSorted (x : String) : List String → List String
  | [] => [x]
  | y :: ys => if x = y then y :: ys
      else if strLt x y then x :: y :: ys else y :: insSorted x ys

def sortedSet (xs : List String) : List String :=
  xs.foldl (fun acc x => insSorted x acc) []

/-- `re.search(r"-\s*([a-z_][a-z0-9_]*)\s*\(", line, re.I)` capture. -/
def lineActName (line : List Char) : Option String :=
  searchO (fun _ s =>
    match s with
    | '-' :: r1 =>
      let r2 := r1.dropWhile isSp
      match r2 with
      | c :: _ =>
        if ('a' ≤ lowerCh c && lowerCh c ≤ 'z') || c = '_' then
          let nm := r2.takeWhile (fun d =>
            ('a' ≤ lowerCh d && lowerCh d ≤ 'z') || isDigitCh d || d = '_')
          match (r2.drop nm.length).dropWhile isSp with
          | '(' :: _ => some (⟨nm⟩ : String)
          | _ => none
        else none
      | [] => none
    | _ => none) line

def catNames : CatalogInput → List String
  | .absent => []
  | .listC xs => xs.filterMap (fun e => match e with
      | .strE s => some s
      | .actE a => some a
      | .otherE => none)
  | .objC xs => xs.filterMap (fun e => match e with
      | .strE s => some s
      | .actE a => some a
      | .otherE => none)
  | .textC s => (s.data.splitOn nlCh).filterMap lineActName

/-- `_normalize_catalog`: collected names, or the default set when
none were extracted, as a sorted set. -/
def normalizeCatalog (cat : CatalogInput) : List String :=
  let names := catNames cat
  if names = [] then sortedSet defaultAllowed else sortedSet names

/-! ## Coherence post-processor (`interpret` step 7.1) -/

def askPayQ : Action :=
  ⟨"ask_user",
    [("question", .str "¿Cómo vas a pagar? Indicá el modo de pago (efectivo, débito, crédito, transferencia, QR).")]⟩

/-- `str(state.get("mode", "")).upper() == "FACTURA" and not state.get("payments")`. -/
def needPaymentFirst (st : ConvState) : Bool :=
  (⟨pyUpperL st.mode.data⟩ : String) == "FACTURA" && st.payments.isEmpty

/-- Coherence step (a): in FACTURA mode with no payment, drop
`confirm_document` and, without a `set_payment`, prepend a payment
question. -/
def coherencePayGate (st : ConvState) (l : List Action) : List Action :=
  if needPaymentFirst st && l.any (fun a => a.action == "confirm_document") then
    let l1 := dropName "confirm_document" l
    if l1.any (fun a => a.action == "set_payment") then l1 else askPayQ :: l1
  else l

def trioNames : List String := ["select_index", "set_qty", "add_to_cart"]

/-- Coherence step (b): a stable sort of the trio by key
10/20/30 — equal to concatenating the three filters — placed in front
of the remaining actions (only when the trio is nonempty). -/
def reorderTrio (l : List Action) : List Action :=
  let trio := l.filter (fun a => trioNames.contains a.action)
  if trio = [] then l
  else
    (l.filter (fun a => a.action == "select_index")) ++
    (l.filter (fun a => a.action == "set_qty")) ++
    (l.filter (fun a => a.action == "add_to_cart")) ++
    (l.filter (fun a => !trioNames.contains a.action))

def insKeySorted (x : String × PVal) : Params → Params
  | [] => [x]
  | y :: ys => if strLt y.1 x.1 then y :: insKeySorted x ys else x :: y :: ys

/-- `json.dumps(a, sort_keys=True)` equality is equality after sorting
the parameter keys (keys are unique and scalar rendering is
injective). -/
def canonAct (a : Action) : Action :=
  ⟨a.action, a.params.foldl (fun acc kv => insKeySorted kv acc) []⟩

/-- Coherence step (c): drop exact duplicates, keeping first
occurrences. -/
def dedupActs (seen : List Action) : List Action → List Action
  | [] => []
  | a :: rest =>
    if seen.contains (canonAct a) then dedupActs seen rest
    else a :: dedupActs (canonAct a :: seen) rest

/-! ## `interpret` -/

/-- The `except` fallback after a guardrail error: whitelist filter
plus a `json.dumps` serializability check on the raw params (which
are kept unmodified). -/
def fallbackSanitize (allowed : List String) (cands : List Cand) : List Action :=
  cands.filterMap (fun c =>
    match c.action with
    | .str n =>
      if allowed.contains n && c.params.all (fun kv => kv.2 ≠ PVal.bad) then
        some ⟨n, c.params⟩
      else none
    | _ => none)

/-- `/bridge/interpret`: catalog normalization, strip, fast path,
then the planner path (`llm` is the external model oracle; `none`
models any transport / timeout / JSON-parse failure), guardrails with
their `except` fallback, and the coherence post-processor.  The
configuration check and logging are outside the modelled scope. -/
def interpret (text : String) (st : ConvState) (catalog : CatalogInput)
    (llm : Option (List Cand)) : List Action :=
  let allowed := normalizeCatalog catalog
  let userText := pyStrip text
  match deterministicFastpath userText st allowed with
  | some l => l
  | none =>
    match llm with
    | none => [⟨"search", [("term", .str userText)]⟩]
    | some cands =>
      let sa :=
        match applyGuardrailsE userText st allowed cands with
        | .ok l => l
        | .error _ => fallbackSanitize allowed cands
      dedupActs [] (reorderTrio (coherencePayGate st sa))

/-! ## Shared lemmas -/

theorem mem_dropName {nm : String} {l : List Action} {a : Action}
    (h : a ∈ dropName nm l) : a ∈ l ∧ a.action ≠ nm := by
  unfold dropName at h
  have h2 := List.mem_filter.mp h
  refine ⟨h2.1, ?_⟩
  have := h2.2
  simp only [Bool.not_eq_true'] at this
  exact fun he => by simp [he] at this

theorem any_dropName_ne (nm q : String) (h : nm ≠ q) (l : List Action) :
    (dropName nm l).any (fun a => a.action == q) =
      l.any (fun a => a.action == q) := by
  induction l with
  | nil => rfl
  | cons a rest ih =>
    unfold dropName at *
    rw [List.filter_cons, List.any_cons]
    by_cases ha : a.action = nm
    · have hdrop : (!(a.action == nm)) = false := by simp [ha]
      have haq : (a.action == q) = false := by
        rw [ha]
        exact beq_false_of_ne h
      rw [hdrop, haq]
      simp only [Bool.false_eq_true, if_false, Bool.false_or]
      exact ih
    · have hkeep : (!(a.action == nm)) = true := by simp [ha]
      rw [hkeep]
      simp only [if_true, List.any_cons]
      rw [ih]

instance : DecidableEq (Except Unit (List Action)) := fun a b =>
  match a, b with
  | .ok x, .ok y => if h : x = y then .isTrue (by rw [h]) else .isFalse (by simp [h])
  | .error x, .error y =>
    match x, y with
    | (), () => .isTrue rfl
  | .ok _, .error _ => .isFalse (by simp)
  | .error _, .ok _ => .isFalse (by simp)

theorem any_filter_imp {p q : Action → Bool} {l : List Action}
    (h : (l.filter p).any q = true) : l.any q = true := by
  rcases List.any_eq_true.mp h with ⟨a, ha, hq⟩
  exact List.any_eq_true.mpr ⟨a, (List.mem_filter.mp ha).1, hq⟩

/-- Filtering with a predicate that keeps every `q`-element does not
change `any q`. -/
theorem any_filter_keep {p q : Action → Bool}
    (hp : ∀ a, q a = true → p a = true) (l : List Action) :
    (l.filter p).any q = l.any q := by
  induction l with
  | nil => rfl
  | cons a rest ih =>
    rw [List.filter_cons, List.any_cons]
    by_cases hqa : q a = true
    · rw [hp a hqa]
      simp only [if_true, List.any_cons]
      rw [hqa, ih]
    · by_cases hpa : p a = true
      · rw [hpa]
        simp only [if_true, List.any_cons]
        rw [ih]
      · rw [Bool.not_eq_true] at hpa hqa
        rw [hpa, hqa]
        simp only [Bool.false_eq_true, if_false, Bool.false_or]
        exact ih

/-- Filtering with a predicate that keeps every `q`-element does not
change `find? q`. -/
theorem find?_filter_keep {p q : Action → Bool}
    (hp : ∀ a, q a = true → p a = true) (l : List Action) :
    (l.filter p).find? q = l.find? q := by
  induction l with
  | nil => rfl
  | cons a rest ih =>
    rw [List.filter_cons]
    by_cases hqa : q a = true
    · rw [hp a hqa]
      simp only [if_true, List.find?_cons, hqa]
    · rw [Bool.not_eq_true] at hqa
      by_cases hpa : p a = true
      · rw [hpa]
        simp only [if_true, List.find?_cons, hqa]
        exact ih
      · rw [Bool.not_eq_true] at hpa
        rw [hpa]
        simp only [Bool.false_eq_true, if_false]
        rw [ih, List.find?_cons, hqa]

/-- Mapping with a function that preserves `q` does not change
`any q`. -/
theorem any_map_pres {f : Action → Action} {q : Action → Bool}
    (hq : ∀ a, q (f a) = q a) (l : List Action) :
    (l.map f).any q = l.any q := by
  rw [List.any_map]
  induction l with
  | nil => rfl
  | cons a rest ih =>
    rw [List.any_cons, List.any_cons, ih]
    simp only [Function.comp]
    rw [hq]

/-- Mapping with a function that preserves `q` and fixes every
`q`-element does not change `find? q`. -/
theorem find?_map_pres {f : Action → Action} {q : Action → Bool}
    (hq1 : ∀ a, q (f a) = q a) (hq2 : ∀ a, q a = true → f a = a)
    (l : List Action) : (l.map f).find? q = l.find? q := by
  induction l with
  | nil => rfl
  | cons a rest ih =>
    rw [List.map_cons, List.find?_cons, List.find?_cons]
    by_cases hqa : q a = true
    · rw [hq2 a hqa]
      rw [hqa]
    · rw [Bool.not_eq_true] at hqa
      have : q (f a) = false := by rw [hq1, hqa]
      rw [this, hqa]
      exact ih

/-! ### Stage-B add-to-cart invariant -/

def selB (a : Action) : Bool := a.action == "select_index"

def addB (a : Action) : Bool := a.action == "add_to_cart"

/-- The add-to-cart postcondition: whenever an `add_to_cart` is in
the list, a `select_index` is present in it or the state has a truthy
selection, and the stage-B index test passes. -/
def AddInv (st : ConvState) (l : List Action) : Prop :=
  l.any addB = true →
    (l.any selB || truthyOptInt st.selected_index) = true ∧ idxOkOn st l = true

theorem addInv_of_no_add {st : ConvState} {l : List Action}
    (h : l.any addB = false) : AddInv st l := by
  intro hadd
  rw [h] at hadd
  cases hadd

theorem idxOk_congr {st : ConvState} {l1 l2 : List Action}
    (h : l1.find? selB = l2.find? selB) : idxOkOn st l1 = idxOkOn st l2 := by
  unfold idxOkOn firstSelIdxVal
  rw [show (fun a => a.action == "select_index") = selB from rfl, h]

/-- `dropName nm` for `nm ≠ select_index` preserves the invariant. -/
theorem addInv_dropName {st : ConvState} (nm : String)
    (hnm : nm ≠ "select_index") {l : List Action} (h : AddInv st l) :
    AddInv st (dropName nm l) := by
  intro hadd
  have hkeep : ∀ a, selB a = true → (!(a.action == nm)) = true := by
    intro a ha
    have : a.action = "select_index" := beq_iff_eq.mp ha
    simp [this]
    exact fun he => hnm he.symm
  obtain ⟨hsel, hidx⟩ := h (any_filter_imp hadd)
  constructor
  · unfold dropName
    rw [any_filter_keep hkeep]
    exact hsel
  · unfold dropName
    rw [idxOk_congr (find?_filter_keep hkeep l)]
    exact hidx

/-- A map that preserves names of `select_index`/`add_to_cart`
membership, and fixes `select_index` elements, preserves the
invariant. -/
theorem addInv_map {st : ConvState} {f : Action → Action}
    (hsel1 : ∀ a, selB (f a) = selB a)
    (hadd1 : ∀ a, addB (f a) = addB a)
    (hsel2 : ∀ a, selB a = true → f a = a)
    {l : List Action} (h : AddInv st l) : AddInv st (l.map f) := by
  intro hadd
  rw [any_map_pres hadd1] at hadd
  obtain ⟨hsel, hidx⟩ := h hadd
  constructor
  · rw [any_map_pres hsel1]
    exact hsel
  · rw [idxOk_congr (find?_map_pres hsel1 hsel2 l)]
    exact hidx

/-- No element of `dropName nm l` is named `nm`. -/
theorem any_dropName_self (nm : String) (l : List Action) :
    (dropName nm l).any (fun a => a.action == nm) = false := by
  rw [List.any_eq_false]
  intro a ha
  have := (mem_dropName ha).2
  simp [this]

/-- Stage B establishes the invariant. -/
theorem stageB_addInv (st : ConvState) (l : List Action) :
    AddInv st (stageB st l) := by
  simp only [stageB]
  by_cases hgate : (!l.any (fun a => a.action == "select_index") &&
      !truthyOptInt st.selected_index) = true
  · rw [hgate]
    simp only [if_true]
    by_cases hadd : (dropName "add_to_cart" l).any (fun a => a.action == "add_to_cart") = true
    · rw [any_dropName_self] at hadd
      cases hadd
    · rw [Bool.not_eq_true] at hadd
      rw [hadd]
      simp only [Bool.false_eq_true, if_false]
      exact addInv_of_no_add (show _ from hadd)
  · rw [Bool.not_eq_true] at hgate
    rw [hgate]
    simp only [Bool.false_eq_true, if_false]
    by_cases hadd : l.any (fun a => a.action == "add_to_cart") = true
    · rw [hadd]
      simp only [if_true]
      by_cases hidx : idxOkOn st l = true
      · rw [hidx]
        simp only [if_true]
        intro _
        refine ⟨?_, hidx⟩
        rw [Bool.and_eq_false_iff] at hgate
        rcases hgate with hg | hg
        · have hg2 : (l.any fun a => a.action == "select_index") = true := by
            cases hb : l.any fun a => a.action == "select_index"
            · rw [hb] at hg; cases hg
            · rfl
          rw [show l.any selB = l.any (fun a => a.action == "select_index") from rfl, hg2]
          rfl
        · have hg2 : truthyOptInt st.selected_index = true := by
            cases hb : truthyOptInt st.selected_index
            · rw [hb] at hg; cases hg
            · rfl
          rw [hg2]
          simp
      · rw [Bool.not_eq_true] at hidx
        rw [hidx]
        simp only [Bool.false_eq_true, if_false]
        exact addInv_of_no_add (any_dropName_self "add_to_cart" l)
    · rw [Bool.not_eq_true] at hadd
      rw [hadd]
      simp only [Bool.false_eq_true, if_false]
      exact addInv_of_no_add (show _ from hadd)

theorem addInv_stageGate {st : ConvState} (cond : Bool) (nm : String)
    (hnm : nm ≠ "select_index") {l : List Action} (h : AddInv st l) :
    AddInv st (stageGate cond nm l) := by
  unfold stageGate
  by_cases hc : cond = true
  · rw [hc]; simpa using h
  · rw [Bool.not_eq_true] at hc
    rw [hc]
    simpa using addInv_dropName nm hnm h

theorem rewriteSearch_ok_action {a b : Action} (h : rewriteSearch a = .ok b) :
    b.action = a.action := by
  unfold rewriteSearch at h
  by_cases hs : (a.action == "search") = true
  · rw [hs] at h
    simp only [if_true] at h
    split at h
    · simp only [Except.ok.injEq] at h
      subst h
      rfl
    · cases h
  · rw [Bool.not_eq_true] at hs
    rw [hs] at h
    simp only [Bool.false_eq_true, if_false, Except.ok.injEq] at h
    subst h
    rfl

theorem mapM_except_ok_mem {f : Action → Except Unit Action} :
    ∀ {xs ys : List Action}, xs.mapM f = .ok ys → ∀ y ∈ ys, ∃ x ∈ xs, f x = .ok y := by
  intro xs
  induction xs with
  | nil =>
    intro ys h y hy
    simp only [List.mapM_nil] at h
    have : ys = [] := by
      cases h
      rfl
    subst this
    cases hy
  | cons x rest ih =>
    intro ys h y hy
    rw [List.mapM_cons] at h
    cases hfx : f x with
    | error e => rw [hfx] at h; cases h
    | ok y0 =>
      rw [hfx] at h
      cases hrest : rest.mapM f with
      | error e =>
        rw [hrest] at h
        cases h
      | ok ys0 =>
        rw [hrest] at h
        have hys : ys = y0 :: ys0 := by
          cases h
          rfl
        subst hys
        rcases List.mem_cons.mp hy with h1 | h1
        · subst h1
          exact ⟨x, List.mem_cons_self .., hfx⟩
        · rcases ih hrest y h1 with ⟨x1, hx1, hfx1⟩
          exact ⟨x1, List.mem_cons_of_mem _ hx1, hfx1⟩

/-- Under a search trigger, every stage-G survivor is a `search`
action. -/
theorem stageG_trigger_all_search {t : String} {l l2 : List Action}
    (htrig : searchOnlyRegexS t = true) (h : stageG t l = .ok l2) :
    ∀ a ∈ l2, a.action = "search" := by
  unfold stageG at h
  rw [htrig] at h
  simp only [if_true] at h
  intro a ha
  rcases mapM_except_ok_mem h a ha with ⟨x, hx, hfx⟩
  have hxs : x.action = "search" := by
    have := (List.mem_filter.mp hx).2
    exact beq_iff_eq.mp this
  rw [rewriteSearch_ok_action hfx, hxs]

theorem stageG_no_trigger {t : String} (l : List Action)
    (h : searchOnlyRegexS t = false) : stageG t l = .ok l := by
  unfold stageG
  rw [h]
  rfl

theorem stage5One_eq_of_ne_remove {n : Nat} {a : Action}
    (h : a.action ≠ "remove_from_cart") : stage5One n a = a := by
  unfold stage5One
  rw [beq_false_of_ne h]
  rfl

theorem stage5One_action_cases (n : Nat) (a : Action) :
    (stage5One n a).action = a.action ∨ (stage5One n a).action = "ask_user" := by
  unfold stage5One
  by_cases h : (a.action == "remove_from_cart") = true
  · rw [h]
    simp only [if_true]
    repeat' split
    all_goals simp [askRangeQ, askIdxNameQ]
  · rw [Bool.not_eq_true] at h
    rw [h]
    simp

theorem jOne_action (i : Nat) (a : Action) : (jOne i a).action = a.action := by
  unfold jOne
  split
  · rfl
  · rfl

theorem jOne_eq_of_ne_remove {i : Nat} {a : Action}
    (h : a.action ≠ "remove_from_cart") : jOne i a = a := by
  unfold jOne
  rw [beq_false_of_ne h]
  rfl

theorem addInv_stageJ {st : ConvState} (t : String) {l : List Action}
    (h : AddInv st l) : AddInv st (stageJ t l) := by
  unfold stageJ
  split
  · split
    · refine addInv_map ?_ ?_ ?_ h
      · intro a
        unfold selB
        rw [jOne_action]
      · intro a
        unfold addB
        rw [jOne_action]
      · intro a ha
        refine jOne_eq_of_ne_remove ?_
        rw [beq_iff_eq.mp ha]
        decide
    · exact h
  · exact h

set_option linter.unnecessarySeqFocus false in
theorem addInv_stage5 {st : ConvState} {l : List Action}
    (h : AddInv st l) : AddInv st (stage5 st l) := by
  unfold stage5
  refine addInv_map ?_ ?_ ?_ h
  · intro a
    by_cases hr : a.action = "remove_from_cart"
    · rcases stage5One_action_cases st.cart.length a with h1 | h1 <;>
        unfold selB <;> rw [h1, hr] <;> rfl
    · rw [stage5One_eq_of_ne_remove hr]
  · intro a
    by_cases hr : a.action = "remove_from_cart"
    · rcases stage5One_action_cases st.cart.length a with h1 | h1 <;>
        unfold addB <;> rw [h1, hr] <;> rfl
    · rw [stage5One_eq_of_ne_remove hr]
  · intro a ha
    refine stage5One_eq_of_ne_remove ?_
    rw [beq_iff_eq.mp ha]
    decide

/-- The guardrail engine's output always satisfies the add-to-cart
invariant. -/
theorem guardrails_addInv {t : String} {st : ConvState} {al : List String}
    {cands : List Cand} {O : List Action}
    (h : applyGuardrailsE t st al cands = .ok O) : AddInv st O := by
  simp only [applyGuardrailsE] at h
  set t' := pyStrip t with ht'
  set lE := stageGate (removeLastRegexS t') "remove_last_item"
    (stageGate (removeRegexS t') "remove_from_cart"
      (stageGate (clearRegexS t') "clear_cart"
        (stageB st (stageA t' (stage0 al cands))))) with hlE
  have hE : AddInv st lE := by
    rw [hlE]
    refine addInv_stageGate _ _ (by decide) ?_
    refine addInv_stageGate _ _ (by decide) ?_
    refine addInv_stageGate _ _ (by decide) ?_
    exact stageB_addInv st (stageA t' (stage0 al cands))
  cases hG : stageG t' lE with
  | error e =>
    rw [hG] at h
    cases h
  | ok l2 =>
    rw [hG] at h
    simp only [Except.ok.injEq] at h
    subst h
    have h2 : AddInv st l2 := by
      by_cases htrig : searchOnlyRegexS t' = true
      · refine addInv_of_no_add ?_
        rw [List.any_eq_false]
        intro a ha
        have := stageG_trigger_all_search htrig hG a ha
        unfold addB
        rw [this]
        decide
      · rw [Bool.not_eq_true] at htrig
        rw [stageG_no_trigger lE htrig] at hG
        have : l2 = lE := by
          cases hG
          rfl
        rw [this]
        exact hE
    exact addInv_stage5 (addInv_stageJ t'
      (addInv_stageGate _ _ (by decide) (addInv_stageGate _ _ (by decide) h2)))

/-! ### Per-element guardrail invariants (for idempotence) -/

def paramsNoBad (ps : Params) : Bool :=
  (ps : List (String × PVal)).all (fun kv => !(kv.2 == PVal.bad))

theorem map_eq_self_of {α : Type} {f : α → α} {l : List α}
    (h : ∀ a ∈ l, f a = a) : l.map f = l := by
  induction l with
  | nil => rfl
  | cons a rest ih =>
    rw [List.map_cons, h a (List.mem_cons_self ..), ih (fun b hb => h b (List.mem_cons_of_mem _ hb))]

theorem pGet_noBad {ps : Params} {k : String} {v : PVal}
    (hnb : paramsNoBad ps = true) (h : pGet ps k = some v) : (!(v == PVal.bad)) = true := by
  unfold pGet at h
  cases hf : List.find? (fun kv => kv.1 == k) ps with
  | none => rw [hf] at h; cases h
  | some kv =>
    rw [hf] at h
    have hv : kv.2 = v := by cases h; rfl
    have hmem := List.mem_of_find?_eq_some hf
    subst hv
    exact List.all_eq_true.mp hnb kv hmem

theorem noBad_filter {ps : Params} {p : String × PVal → Bool}
    (h : paramsNoBad ps = true) : paramsNoBad (ps.filter p) = true := by
  rw [paramsNoBad, List.all_eq_true]
  intro kv hkv
  exact List.all_eq_true.mp h kv (List.mem_filter.mp hkv).1

theorem noBad_append {ps qs : Params} (hp : paramsNoBad ps = true)
    (hq : paramsNoBad qs = true) : paramsNoBad (ps ++ qs) = true := by
  rw [paramsNoBad, List.all_eq_true]
  intro kv hkv
  rcases List.mem_append.mp hkv with h | h
  · exact List.all_eq_true.mp hp kv h
  · exact List.all_eq_true.mp hq kv h

theorem noBad_coerce (ps : Params) : paramsNoBad (coerceParams ps) = true := by
  rw [paramsNoBad, List.all_eq_true]
  intro kv hkv
  exact (List.mem_filter.mp hkv).2

theorem noBad_pSet {ps : Params} {k : String} {v : PVal}
    (hps : paramsNoBad ps = true) (hv : (!(v == PVal.bad)) = true) :
    paramsNoBad (pSet ps k v) = true := by
  induction ps with
  | nil => simp [pSet, paramsNoBad, hv]
  | cons kv rest ih =>
    obtain ⟨k', v'⟩ := kv
    have hv' : (!(v' == PVal.bad)) = true := by
      simpa using List.all_eq_true.mp hps (k', v') (List.mem_cons_self ..)
    have hrest : paramsNoBad rest = true := by
      rw [paramsNoBad, List.all_eq_true]
      exact fun x hx => List.all_eq_true.mp hps x (List.mem_cons_of_mem _ hx)
    rw [pSet]
    by_cases hk : k' = k
    · rw [if_pos hk]
      rw [paramsNoBad, List.all_cons, Bool.and_eq_true]
      refine ⟨by simpa using hv, ?_⟩
      rw [paramsNoBad] at hrest
      exact hrest
    · rw [if_neg hk]
      rw [paramsNoBad, List.all_cons, Bool.and_eq_true]
      refine ⟨by simpa using hv', ?_⟩
      have := ih hrest
      rw [paramsNoBad] at this
      exact this

theorem pHas_pSet (ps : Params) (k : String) (v : PVal) :
    pHas (pSet ps k v) k = true := by
  induction ps with
  | nil => simp [pSet, pHas]
  | cons kv rest ih =>
    obtain ⟨k', v'⟩ := kv
    rw [pSet]
    by_cases hk : k' = k
    · rw [if_pos hk]
      simp [pHas, hk]
    · rw [if_neg hk]
      rw [pHas, List.any_cons]
      rw [pHas] at ih
      rw [ih]
      simp

theorem pGet_pSet (ps : Params) (k : String) (v : PVal) :
    pGet (pSet ps k v) k = some v := by
  induction ps with
  | nil => simp [pSet, pGet]
  | cons kv rest ih =>
    obtain ⟨k', v'⟩ := kv
    rw [pSet]
    by_cases hk : k' = k
    · rw [if_pos hk]
      simp [pGet, hk]
    · rw [if_neg hk]
      have hb := beq_false_of_ne hk
      rw [pGet, List.find?_cons]
      simp only [hb]
      rw [pGet] at ih
      exact ih

theorem pSet_pGet_self {ps : Params} {k : String} {v : PVal}
    (h : pGet ps k = some v) : pSet ps k v = ps := by
  induction ps with
  | nil => rw [pGet] at h; cases h
  | cons kv rest ih =>
    obtain ⟨k', v'⟩ := kv
    rw [pGet, List.find?_cons] at h
    rw [pSet]
    by_cases hk : k' = k
    · have hb : (k' == k) = true := beq_iff_eq.mpr hk
      simp only [hb] at h
      have hv : v' = v := by cases h; rfl
      rw [if_pos hk, hk, hv]
    · have hb := beq_false_of_ne hk
      simp only [hb] at h
      rw [if_neg hk]
      rw [ih (by rw [pGet]; exact h)]

theorem jOne_idem (i : Nat) (a : Action) : jOne i (jOne i a) = jOne i a := by
  by_cases h : (a.action == "remove_from_cart") = true
  · simp only [jOne, h, if_true]
    congr 1
    exact pSet_pGet_self (pGet_pSet ..)
  · rw [Bool.not_eq_true] at h
    simp only [jOne, h, Bool.false_eq_true, if_false]

/-- Properties established by stage 0 for every survivor. -/
def Inv0 (al : List String) (a : Action) : Prop :=
  (al.contains a.action = true ∨ a.action = "ask_user") ∧
  paramsNoBad a.params = true ∧
  (a.action = "search" → pHas a.params "query" = true → pHas a.params "term" = true)

/-- Properties established by stage 0 plus the explicit-intent gates. -/
def PreInv (t : String) (al : List String) (a : Action) : Prop :=
  Inv0 al a ∧
  (a.action = "confirm_document" → confirmRegexS t = true) ∧
  (a.action = "clear_cart" → clearRegexS t = true) ∧
  (a.action = "remove_from_cart" → removeRegexS t = true) ∧
  (a.action = "remove_last_item" → removeLastRegexS t = true) ∧
  (a.action = "set_mode" → modeExplicitRegexS t = true) ∧
  (a.action = "set_payment" → payIntentRegexS t = true)

/-- The stage-J override fires with index `i`. -/
def jFired (t : String) (i : Nat) : Prop :=
  parseIndexG t = some i ∧ carritoRawS t = true ∧ i ≠ 0

/-- Full per-element invariant of the guardrail output. -/
def GInv (t : String) (st : ConvState) (al : List String) (a : Action) : Prop :=
  PreInv t al a ∧
  (a.action = "remove_from_cart" →
    stage5One st.cart.length a = a ∧ (∀ i : Nat, jFired t i → jOne i a = a))

theorem stage0_forward (al : List String) (cands : List Cand) :
    ∀ a ∈ stage0 al cands, Inv0 al a := by
  intro a ha
  unfold stage0 at ha
  rcases List.mem_filterMap.mp ha with ⟨c, _, hc⟩
  unfold sanitizeOne at hc
  cases hact : c.action with
  | str n =>
    rw [hact] at hc
    simp only at hc
    by_cases hn : al.contains n = true
    · rw [hn] at hc
      simp only [if_true, Option.some.injEq] at hc
      by_cases hcond : (n == "search" && pHas (coerceParams c.params) "query" &&
          !pHas (coerceParams c.params) "term") = true
      · rw [hcond] at hc
        simp only [if_true] at hc
        subst hc
        refine ⟨.inl hn, ?_, ?_⟩
        · refine noBad_append (noBad_filter (noBad_coerce c.params)) ?_
          cases hg : pGet (coerceParams c.params) "query" with
          | none => simp [paramsNoBad]
          | some v =>
            have := pGet_noBad (noBad_coerce c.params) hg
            simp [paramsNoBad, hg]
            simpa using this
        · intro _ _
          simp [pHas]
      · rw [Bool.not_eq_true] at hcond
        rw [hcond] at hc
        simp only [Bool.false_eq_true, if_false] at hc
        subst hc
        refine ⟨.inl hn, noBad_coerce c.params, ?_⟩
        intro hs hq
        simp only at hs hq ⊢
        subst hs
        by_cases ht : pHas (coerceParams c.params) "term" = true
        · exact ht
        · rw [Bool.not_eq_true] at ht
          rw [hq, ht] at hcond
          simp at hcond
    · rw [Bool.not_eq_true] at hn
      rw [hn] at hc
      simp at hc
  | int m => rw [hact] at hc; simp at hc
  | bool b => rw [hact] at hc; simp at hc
  | null => rw [hact] at hc; simp at hc
  | bad => rw [hact] at hc; simp at hc

theorem stageGate_forward {cond : Bool} {nm : String} {l : List Action}
    {P : Action → Prop} (hP : ∀ a ∈ l, P a) :
    ∀ a ∈ stageGate cond nm l, P a ∧ (a.action = nm → cond = true) := by
  intro a ha
  unfold stageGate at ha
  by_cases hc : cond = true
  · rw [hc] at ha
    simp only [if_true] at ha
    exact ⟨hP a ha, fun _ => hc⟩
  · rw [Bool.not_eq_true] at hc
    rw [hc] at ha
    simp only [Bool.false_eq_true, if_false] at ha
    obtain ⟨hm, hne⟩ := mem_dropName ha
    exact ⟨hP a hm, fun he => absurd he hne⟩

theorem stageB_subset {st : ConvState} {l : List Action} :
    ∀ a ∈ stageB st l, a ∈ l := by
  intro a ha
  simp only [stageB] at ha
  repeat' split at ha
  all_goals first
    | exact ha
    | exact (mem_dropName ha).1
    | exact (mem_dropName (mem_dropName ha).1).1

theorem stageG_mem {t : String} {l l2 : List Action} (h : stageG t l = .ok l2) :
    ∀ a ∈ l2, a ∈ l ∨ ∃ b ∈ l, b.action = "search" ∧ rewriteSearch b = .ok a := by
  unfold stageG at h
  by_cases htr : searchOnlyRegexS t = true
  · rw [htr] at h
    simp only [if_true] at h
    intro a ha
    rcases mapM_except_ok_mem h a ha with ⟨b, hbl, hfb⟩
    have hbf := List.mem_filter.mp hbl
    exact .inr ⟨b, hbf.1, beq_iff_eq.mp hbf.2, hfb⟩
  · rw [Bool.not_eq_true] at htr
    rw [htr] at h
    simp only [Bool.false_eq_true, if_false, Except.ok.injEq] at h
    subst h
    exact fun a ha => .inl ha

theorem rewriteSearch_ok_params {b a : Action} (h : rewriteSearch b = .ok a)
    (hs : (b.action == "search") = true) :
    ∃ ps1 s, (ps1 = pErase b.params "query" ∨ ps1 = b.params) ∧
      a = ⟨b.action, pSet ps1 "term" (.str s)⟩ := by
  unfold rewriteSearch at h
  rw [hs] at h
  simp only [if_true] at h
  split at h
  · rename_i s hsv
    simp only [Except.ok.injEq] at h
    subst h
    by_cases hq : pHas b.params "query" = true
    · rw [if_pos hq]
      exact ⟨_, _, .inl rfl, rfl⟩
    · rw [if_neg hq]
      exact ⟨_, _, .inr rfl, rfl⟩
  · cases h

theorem str_ne_bad (s : String) : (!(PVal.str s == PVal.bad)) = true := by
  rfl

theorem rewriteSearch_ok_noBad {b a : Action} (hnb : paramsNoBad b.params = true)
    (hs : (b.action == "search") = true) (h : rewriteSearch b = .ok a) :
    paramsNoBad a.params = true := by
  rcases rewriteSearch_ok_params h hs with ⟨ps1, s, hps1, hae⟩
  subst hae
  refine noBad_pSet ?_ (str_ne_bad s)
  rcases hps1 with h1 | h1 <;> subst h1
  · exact noBad_filter hnb
  · exact hnb

theorem rewriteSearch_ok_term {b a : Action} (hs : (b.action == "search") = true)
    (h : rewriteSearch b = .ok a) : pHas a.params "term" = true := by
  rcases rewriteSearch_ok_params h hs with ⟨ps1, s, _, hae⟩
  subst hae
  exact pHas_pSet ..

theorem askRangeQ_action (n : Nat) : (askRangeQ n).action = "ask_user" := rfl

theorem askIdxNameQ_action : askIdxNameQ.action = "ask_user" := rfl

theorem stage5One_cases (n : Nat) (b : Action) :
    stage5One n b = b ∨ stage5One n b = askRangeQ n ∨ stage5One n b = askIdxNameQ := by
  unfold stage5One
  by_cases h : (b.action == "remove_from_cart") = true
  · rw [h]
    simp only [if_true]
    repeat' split
    all_goals simp
  · rw [Bool.not_eq_true] at h
    rw [h]
    simp

theorem stage5One_remove_eq {n : Nat} {b a : Action} (h : stage5One n b = a)
    (ha : a.action = "remove_from_cart") : a = b := by
  rcases stage5One_cases n b with h1 | h1 | h1 <;> rw [h1] at h
  · exact h.symm
  · subst h
    rw [askRangeQ_action] at ha
    exact absurd ha (by decide)
  · subst h
    rw [askIdxNameQ_action] at ha
    exact absurd ha (by decide)

/-- PreInv is preserved by the stage-J override. -/
theorem preInv_jOne {t : String} {al : List String} {i : Nat} {b : Action}
    (hP : PreInv t al b) : PreInv t al (jOne i b) := by
  by_cases hb : (b.action == "remove_from_cart") = true
  · have hbe := beq_iff_eq.mp hb
    have hact : (jOne i b).action = b.action := jOne_action i b
    obtain ⟨⟨h1, h2, h3⟩, h4, h5, h6, h7, h8, h9⟩ := hP
    unfold jOne
    rw [hb]
    simp only [if_true]
    refine ⟨⟨?_, ?_, ?_⟩, ?_, ?_, ?_, ?_, ?_, ?_⟩
    · exact h1
    · exact noBad_pSet h2 (by rfl)
    · intro hs
      rw [hbe] at hs
      exact absurd hs (by decide)
    · exact h4
    · exact h5
    · exact h6
    · exact h7
    · exact h8
    · exact h9
  · rw [jOne_eq_of_ne_remove (by simpa using hb)]
    exact hP

/-- The ask_user actions injected by stage 5 satisfy PreInv. -/
theorem preInv_askRange {t : String} {al : List String} (n : Nat) :
    PreInv t al (askRangeQ n) := by
  refine ⟨⟨.inr rfl, by rfl, ?_⟩, ?_, ?_, ?_, ?_, ?_, ?_⟩
  · intro h _
    rw [askRangeQ_action] at h
    exact absurd h (by decide)
  all_goals
    intro h
    rw [askRangeQ_action] at h
    exact absurd h (by decide)

theorem preInv_askIdxName {t : String} {al : List String} :
    PreInv t al askIdxNameQ := by
  refine ⟨⟨.inr rfl, by rfl, ?_⟩, ?_, ?_, ?_, ?_, ?_, ?_⟩
  · intro h _
    rw [askIdxNameQ_action] at h
    exact absurd h (by decide)
  all_goals
    intro h
    rw [askIdxNameQ_action] at h
    exact absurd h (by decide)

/-- Invariant after the explicit-intent gates C, D, E (before the
mode / payment gates). -/
def MidInv (t : String) (al : List String) (a : Action) : Prop :=
  Inv0 al a ∧
  (a.action = "confirm_document" → confirmRegexS t = true) ∧
  (a.action = "clear_cart" → clearRegexS t = true) ∧
  (a.action = "remove_from_cart" → removeRegexS t = true) ∧
  (a.action = "remove_last_item" → removeLastRegexS t = true)

/-- Main invariant of the guardrail engine's output. -/
theorem guardrails_GInv {t : String} {st : ConvState} {al : List String}
    {cands : List Cand} {O : List Action}
    (h : applyGuardrailsE t st al cands = .ok O) :
    ∀ a ∈ O, GInv (pyStrip t) st al a := by
  simp only [applyGuardrailsE] at h
  set t' := pyStrip t with ht'
  set lE := stageGate (removeLastRegexS t') "remove_last_item"
    (stageGate (removeRegexS t') "remove_from_cart"
      (stageGate (clearRegexS t') "clear_cart"
        (stageB st (stageA t' (stage0 al cands))))) with hlE
  have hEinv : ∀ a ∈ lE, MidInv t' al a := by
    intro a ha
    rw [hlE] at ha
    obtain ⟨hin1, hlast⟩ := stageGate_forward (fun b hb => hb) a ha
    obtain ⟨hin2, hremove⟩ := stageGate_forward (fun b hb => hb) a hin1
    obtain ⟨hin3, hclear⟩ := stageGate_forward (fun b hb => hb) a hin2
    have hin4 := stageB_subset a hin3
    unfold stageA at hin4
    obtain ⟨hin5, hconfirm⟩ := stageGate_forward (fun b hb => hb) a hin4
    exact ⟨stage0_forward al cands a hin5, hconfirm, hclear, hremove, hlast⟩
  cases hG : stageG t' lE with
  | error e =>
    rw [hG] at h
    cases h
  | ok l2 =>
    rw [hG] at h
    simp only [Except.ok.injEq] at h
    have h2inv : ∀ a ∈ l2, MidInv t' al a := by
      intro a ha
      rcases stageG_mem hG a ha with hmem | ⟨b, hbl, hbs, hrw⟩
      · exact hEinv a hmem
      · have hact : a.action = "search" := by
          rw [rewriteSearch_ok_action hrw, hbs]
        obtain ⟨⟨hb1, _, _⟩, _⟩ := hEinv b hbl
        refine ⟨⟨?_, ?_, ?_⟩, ?_, ?_, ?_, ?_⟩
        · rw [hact]
          rw [hbs] at hb1
          rcases hb1 with h1 | h1
          · exact .inl h1
          · exact absurd h1 (by decide)
        · exact rewriteSearch_ok_noBad (hEinv b hbl).1.2.1
            (beq_iff_eq.mpr hbs) hrw
        · intro _ _
          exact rewriteSearch_ok_term (beq_iff_eq.mpr hbs) hrw
        · intro hc; rw [hact] at hc; exact absurd hc (by decide)
        · intro hc; rw [hact] at hc; exact absurd hc (by decide)
        · intro hc; rw [hact] at hc; exact absurd hc (by decide)
        · intro hc; rw [hact] at hc; exact absurd hc (by decide)
    have h4inv : ∀ a ∈ stageGate (payIntentRegexS t') "set_payment"
        (stageGate (modeExplicitRegexS t') "set_mode" l2), PreInv t' al a := by
      intro a ha
      obtain ⟨hin1, hpay⟩ := stageGate_forward (fun b hb => hb) a ha
      obtain ⟨hin2, hmode⟩ := stageGate_forward (fun b hb => hb) a hin1
      obtain ⟨h0, hc, hcl, hr, hl⟩ := h2inv a hin2
      exact ⟨h0, hc, hcl, hr, hl, hmode, hpay⟩
    set l4 := stageGate (payIntentRegexS t') "set_payment"
      (stageGate (modeExplicitRegexS t') "set_mode" l2) with hl4
    have h5inv : ∀ a ∈ stageJ t' l4,
        PreInv t' al a ∧ (∀ i : Nat, jFired t' i → jOne i a = a) := by
      intro a ha
      unfold stageJ at ha
      split at ha
      · rename_i i0 hpi
        split at ha
        · rename_i hcond
          rcases List.mem_map.mp ha with ⟨b, hbl, hba⟩
          subst hba
          refine ⟨preInv_jOne (h4inv b hbl), ?_⟩
          intro i hf
          have h2 := hf.1
          rw [hpi] at h2
          injection h2 with h3
          subst h3
          exact jOne_idem i0 b
        · rename_i hcond
          refine ⟨h4inv a ha, ?_⟩
          intro i hf
          have h2 := hf.1
          rw [hpi] at h2
          injection h2 with h3
          subst h3
          exfalso
          apply hcond
          rw [hf.2.1]
          simp [hf.2.2]
      · rename_i hpi
        refine ⟨h4inv a ha, ?_⟩
        intro i hf
        have h2 := hf.1
        rw [hpi] at h2
        cases h2
    subst h
    intro a ha
    unfold stage5 at ha
    rcases List.mem_map.mp ha with ⟨b, hbl, hba⟩
    obtain ⟨hPb, hJb⟩ := h5inv b hbl
    rcases stage5One_cases st.cart.length b with hcase | hcase | hcase <;>
      rw [hcase] at hba
    · subst hba
      refine ⟨hPb, ?_⟩
      intro _
      exact ⟨hcase, hJb⟩
    · subst hba
      refine ⟨preInv_askRange st.cart.length, ?_⟩
      intro hr
      rw [askRangeQ_action] at hr
      exact absurd hr (by decide)
    · subst hba
      refine ⟨preInv_askIdxName, ?_⟩
      intro hr
      rw [askIdxNameQ_action] at hr
      exact absurd hr (by decide)

/-! ### Identity lemmas for the second guardrail pass -/

theorem coerce_noBad_id {ps : Params} (h : paramsNoBad ps = true) :
    coerceParams ps = ps :=
  List.filter_eq_self.mpr (fun kv hkv => List.all_eq_true.mp h kv hkv)

theorem sanitizeOne_id {al : List String} {a : Action}
    (hask : al.contains "ask_user" = true)
    (h1 : al.contains a.action = true ∨ a.action = "ask_user")
    (h2 : paramsNoBad a.params = true)
    (h3 : a.action = "search" → pHas a.params "query" = true →
      pHas a.params "term" = true) :
    sanitizeOne al a.toCand = some a := by
  unfold Action.toCand sanitizeOne
  simp only
  have hcont : al.contains a.action = true := by
    rcases h1 with h | h
    · exact h
    · rw [h]
      exact hask
  rw [hcont]
  simp only [if_true]
  rw [coerce_noBad_id h2]
  have hcond : (a.action == "search" && pHas a.params "query" &&
      !pHas a.params "term") = false := by
    by_cases hs : a.action = "search"
    · by_cases hq : pHas a.params "query" = true
      · rw [h3 hs hq]
        simp
      · rw [Bool.not_eq_true] at hq
        rw [hq]
        simp
    · rw [beq_false_of_ne hs]
      simp
  rw [hcond]
  rfl

theorem stage0_id {al : List String} {l : List Action}
    (hask : al.contains "ask_user" = true)
    (h : ∀ a ∈ l, Inv0 al a) :
    stage0 al (l.map Action.toCand) = l := by
  induction l with
  | nil => rfl
  | cons a rest ih =>
    obtain ⟨h1, h2, h3⟩ := h a (List.mem_cons_self ..)
    have ih' := ih (fun b hb => h b (List.mem_cons_of_mem _ hb))
    unfold stage0 at ih' ⊢
    simp only [List.map_cons, List.filterMap_cons,
      sanitizeOne_id hask h1 h2 h3, ih']

theorem stageGate_id {cond : Bool} {nm : String} {l : List Action}
    (h : ∀ a ∈ l, a.action = nm → cond = true) : stageGate cond nm l = l := by
  unfold stageGate
  by_cases hc : cond = true
  · rw [hc]
    rfl
  · rw [Bool.not_eq_true] at hc
    rw [hc]
    simp only [Bool.false_eq_true, if_false]
    unfold dropName
    refine List.filter_eq_self.mpr ?_
    intro a ha
    by_cases he : a.action = nm
    · rw [h a ha he] at hc
      cases hc
    · simp [he]

theorem stageB_id {st : ConvState} {l : List Action} (h : AddInv st l) :
    stageB st l = l := by
  simp only [stageB]
  by_cases hgate : ((!l.any fun a => a.action == "select_index") &&
      !truthyOptInt st.selected_index) = true
  · rw [hgate]
    simp only [if_true]
    have hnoadd : l.any (fun a => a.action == "add_to_cart") = false := by
      cases hany : l.any (fun a => a.action == "add_to_cart")
      · rfl
      · exfalso
        obtain ⟨hsel, _⟩ := h hany
        rw [Bool.and_eq_true] at hgate
        rcases (Bool.or_eq_true _ _).mp hsel with hx | hx
        · have := hgate.1
          rw [show (l.any selB) = l.any (fun a => a.action == "select_index") from rfl] at hx
          rw [hx] at this
          cases this
        · have := hgate.2
          rw [hx] at this
          cases this
    have hdrop : dropName "add_to_cart" l = l := by
      unfold dropName
      refine List.filter_eq_self.mpr ?_
      intro a ha
      rw [List.any_eq_false] at hnoadd
      simpa using hnoadd a ha
    rw [hdrop, hnoadd]
    simp
  · rw [Bool.not_eq_true] at hgate
    rw [hgate]
    simp only [Bool.false_eq_true, if_false]
    by_cases hadd : l.any (fun a => a.action == "add_to_cart") = true
    · rw [hadd]
      simp only [if_true]
      obtain ⟨_, hidx⟩ := h hadd
      rw [hidx]
      simp
    · rw [Bool.not_eq_true] at hadd
      rw [hadd]
      simp

theorem stageJ_id {t : String} {l : List Action}
    (h : ∀ a ∈ l, a.action = "remove_from_cart" →
      ∀ i : Nat, jFired t i → jOne i a = a) :
    stageJ t l = l := by
  unfold stageJ
  split
  · rename_i i0 hpi
    split
    · rename_i hcond
      refine map_eq_self_of ?_
      intro a ha
      by_cases hr : a.action = "remove_from_cart"
      · rw [Bool.and_eq_true] at hcond
        refine h a ha hr i0 ⟨hpi, hcond.1, ?_⟩
        have := hcond.2
        intro h0
        rw [h0] at this
        simp at this
      · exact jOne_eq_of_ne_remove hr
    · rfl
  · rfl

theorem stage5_id {st : ConvState} {l : List Action}
    (h : ∀ a ∈ l, a.action = "remove_from_cart" →
      stage5One st.cart.length a = a) :
    stage5 st l = l := by
  unfold stage5
  refine map_eq_self_of ?_
  intro a ha
  by_cases hr : a.action = "remove_from_cart"
  · exact h a ha hr
  · exact stage5One_eq_of_ne_remove hr

/-! ### Whitelist membership through the fast path, the fallback and
the coherence stages -/

theorem mem_ite_nil {c : Prop} [Decidable c] {l : List Action} {a : Action}
    (h : a ∈ (if c then l else [])) : c ∧ a ∈ l := by
  by_cases hc : c
  · rw [if_pos hc] at h
    exact ⟨hc, h⟩
  · rw [if_neg hc] at h
    cases h

theorem dropWhile_isSp_idem (l : List Char) :
    (l.dropWhile isSp).dropWhile isSp = l.dropWhile isSp := by
  induction l with
  | nil => rfl
  | cons c cs ih =>
    rw [List.dropWhile_cons]
    by_cases hc : isSp c = true
    · rw [if_pos hc]
      exact ih
    · rw [if_neg hc, List.dropWhile_cons, if_neg hc]

theorem dropWhile_eq_self_of_prefix {B C : List Char}
    (h : ((B ++ C).dropWhile isSp) = B ++ C) : B.dropWhile isSp = B := by
  cases B with
  | nil => rfl
  | cons b bs =>
    rw [List.cons_append, List.dropWhile_cons] at h
    by_cases hb : isSp b = true
    · rw [if_pos hb] at h
      have hle := (List.dropWhile_sublist (l := bs ++ C) isSp).length_le
      rw [h] at hle
      simp at hle
    · rw [List.dropWhile_cons, if_neg hb]

theorem pyStripL_idem (s : List Char) : pyStripL (pyStripL s) = pyStripL s := by
  unfold pyStripL
  set A := s.dropWhile isSp with hA
  set R := A.reverse.dropWhile isSp with hR
  have hAdrop : A.dropWhile isSp = A := dropWhile_isSp_idem s
  have hBpre : R.reverse ++ (A.reverse.takeWhile isSp).reverse = A :=
    calc R.reverse ++ (A.reverse.takeWhile isSp).reverse
        = (A.reverse.takeWhile isSp ++ R).reverse := (List.reverse_append _ _).symm
      _ = A.reverse.reverse := by rw [hR, List.takeWhile_append_dropWhile]
      _ = A := List.reverse_reverse A
  have hBdrop : R.reverse.dropWhile isSp = R.reverse := by
    refine dropWhile_eq_self_of_prefix (C := (A.reverse.takeWhile isSp).reverse) ?_
    rw [hBpre]
    exact hAdrop
  rw [hBdrop, List.reverse_reverse, dropWhile_isSp_idem A.reverse]

theorem pyStrip_idem (s : String) : pyStrip (pyStrip s) = pyStrip s :=
  congrArg String.mk (pyStripL_idem s.data)

/-- Every fast-path action is whitelisted, and a fast-path
`confirm_document` only arises from the normalized-text confirmation
pattern. -/
theorem fastpath_mem {t : String} {st : ConvState} {al : List String}
    {l : List Action} (h : deterministicFastpath t st al = some l) :
    ∀ a ∈ l, al.contains a.action = true ∧
      (a.action = "confirm_document" →
        confirmFastRegexS (normalizeEs t).text.data = true) := by
  simp only [deterministicFastpath] at h
  generalize hnt : (normalizeEs t).text.data = nt at h ⊢
  by_cases h1 : (al.contains "confirm_document" && confirmFastRegexS nt) = true
  · rw [if_pos h1] at h
    injection h with h2
    subst h2
    intro a ha
    rw [List.mem_singleton.mp ha]
    obtain ⟨hx, hy⟩ := (Bool.and_eq_true _ _).mp h1
    exact ⟨hx, fun _ => hy⟩
  rw [if_neg h1] at h
  by_cases h2 : (al.contains "set_payment" && efectivoRegexS nt) = true
  · rw [if_pos h2] at h
    injection h with h2'
    subst h2'
    intro a ha
    rw [List.mem_singleton.mp ha]
    exact ⟨((Bool.and_eq_true _ _).mp h2).1, fun hcd => absurd hcd (by simp)⟩
  rw [if_neg h2] at h
  by_cases h3 : (al.contains "set_payment" && transferRegexS nt) = true
  · rw [if_pos h3] at h
    injection h with h2'
    subst h2'
    intro a ha
    rw [List.mem_singleton.mp ha]
    exact ⟨((Bool.and_eq_true _ _).mp h3).1, fun hcd => absurd hcd (by simp)⟩
  rw [if_neg h3] at h
  by_cases h4 : (al.contains "set_payment" && tarjCredRegexS nt) = true
  · rw [if_pos h4] at h
    injection h with h2'
    subst h2'
    intro a ha
    rw [List.mem_singleton.mp ha]
    exact ⟨((Bool.and_eq_true _ _).mp h4).1, fun hcd => absurd hcd (by simp)⟩
  rw [if_neg h4] at h
  by_cases h5 : (al.contains "set_payment" && tarjDebRegexS nt) = true
  · rw [if_pos h5] at h
    injection h with h2'
    subst h2'
    intro a ha
    rw [List.mem_singleton.mp ha]
    exact ⟨((Bool.and_eq_true _ _).mp h5).1, fun hcd => absurd hcd (by simp)⟩
  rw [if_neg h5] at h
  cases hmc : (if al.contains "set_mode" = true then modoCap nt else none) with
  | some m =>
    rw [hmc] at h
    dsimp only at h
    injection h with h2'
    subst h2'
    have hsm : al.contains "set_mode" = true := by
      by_cases hx : al.contains "set_mode" = true
      · exact hx
      · rw [if_neg hx] at hmc
        cases hmc
    intro a ha
    rw [List.mem_singleton.mp ha]
    exact ⟨hsm, fun hcd => absurd hcd (by simp)⟩
  | none =>
    rw [hmc] at h
    dsimp only at h
    split at h
    · rename_i r hr
      injection h with h2
      subst h2
      split at hr
      · rename_i hs
        split at hr
        · injection hr with h3
          subst h3
          intro a ha
          rw [List.mem_singleton.mp ha]
          exact ⟨((Bool.and_eq_true _ _).mp hs).1,
            fun hcd => absurd hcd (by simp)⟩
        · cases hr
      · cases hr
    · split at h
      · rename_i hc
        injection h with h2
        subst h2
        intro a ha
        rw [List.mem_singleton.mp ha]
        exact ⟨((Bool.and_eq_true _ _).mp hc).2,
          fun hcd => absurd hcd (by simp)⟩
      · split at h
        · rename_i r hr
          injection h with h2
          subst h2
          split at hr
          · rename_i hcr
            have hcont : al.contains "remove_from_cart" = true :=
              ((Bool.and_eq_true _ _).mp hcr).2
            split at hr
            · rename_i i hi
              split at hr
              · injection hr with h3
                subst h3
                intro a ha
                rw [List.mem_singleton.mp ha]
                exact ⟨hcont, fun hcd => absurd hcd (by simp)⟩
              · split at hr
                · rename_i nm0 hnm
                  split at hr
                  · injection hr with h3
                    subst h3
                    intro a ha
                    rw [List.mem_singleton.mp ha]
                    exact ⟨hcont, fun hcd => absurd hcd (by simp)⟩
                  · cases hr
                · cases hr
            · split at hr
              · rename_i nm0 hnm
                split at hr
                · injection hr with h3
                  subst h3
                  intro a ha
                  rw [List.mem_singleton.mp ha]
                  exact ⟨hcont, fun hcd => absurd hcd (by simp)⟩
                · cases hr
              · cases hr
          · cases hr
        · split at h
          · rename_i qa hqa
            split at h
            · rename_i hsel
              injection h with h2
              subst h2
              intro a ha
              rcases List.mem_append.mp ha with hx | hy
              · rcases List.mem_append.mp hx with hz | hw
                · rw [List.mem_singleton.mp hz]
                  exact ⟨((Bool.and_eq_true _ _).mp hsel).2,
                    fun hcd => absurd hcd (by simp)⟩
                · obtain ⟨hc, hm⟩ := mem_ite_nil hw
                  rw [List.mem_singleton.mp hm]
                  exact ⟨hc, fun hcd => absurd hcd (by simp)⟩
              · obtain ⟨hc, hm⟩ := mem_ite_nil hy
                rw [List.mem_singleton.mp hm]
                exact ⟨((Bool.and_eq_true _ _).mp hc).2,
                  fun hcd => absurd hcd (by simp)⟩
            · split at h
              · rename_i hq
                injection h with h2
                subst h2
                intro a ha
                rcases List.mem_append.mp ha with hx | hy
                · rcases List.mem_append.mp hx with hz | hw
                  · cases hz
                  · rw [List.mem_singleton.mp hw]
                    exact ⟨hq, fun hcd => absurd hcd (by simp)⟩
                · obtain ⟨hc, hm⟩ := mem_ite_nil hy
                  rw [List.mem_singleton.mp hm]
                  exact ⟨((Bool.and_eq_true _ _).mp hc).2,
                    fun hcd => absurd hcd (by simp)⟩
              · split at h
                · rename_i had
                  injection h with h2
                  subst h2
                  intro a ha
                  rcases List.mem_append.mp ha with hx | hy
                  · rcases List.mem_append.mp hx with hz | hw
                    · cases hz
                    · cases hw
                  · rw [List.mem_singleton.mp hy]
                    exact ⟨((Bool.and_eq_true _ _).mp had).2,
                      fun hcd => absurd hcd (by simp)⟩
                · cases h
          · split at h
            · split at h
              · split at h
                · rename_i hask
                  injection h with h2
                  subst h2
                  intro a ha
                  rw [List.mem_singleton.mp ha]
                  exact ⟨hask, fun hcd => absurd hcd (by decide)⟩
                · cases h
              · split at h
                · rename_i hsq
                  split at h
                  · rename_i hsel
                    split at h
                    · rename_i hsel2
                      injection h with h2
                      subst h2
                      intro a ha
                      rcases List.mem_append.mp ha with hx | hy
                      · rcases List.mem_append.mp hx with hz | hw
                        · rw [List.mem_singleton.mp hz]
                          exact ⟨((Bool.and_eq_true _ _).mp hsel).2,
                            fun hcd => absurd hcd (by simp)⟩
                        · rw [List.mem_singleton.mp hw]
                          exact ⟨hsel2.2.2, fun hcd => absurd hcd (by simp)⟩
                      · rw [List.mem_singleton.mp hy]
                        exact ⟨hsq, fun hcd => absurd hcd (by simp)⟩
                    · injection h with h2
                      subst h2
                      intro a ha
                      rcases List.mem_append.mp ha with hx | hy
                      · rcases List.mem_append.mp hx with hz | hw
                        · rw [List.mem_singleton.mp hz]
                          exact ⟨((Bool.and_eq_true _ _).mp hsel).2,
                            fun hcd => absurd hcd (by simp)⟩
                        · cases hw
                      · rw [List.mem_singleton.mp hy]
                        exact ⟨hsq, fun hcd => absurd hcd (by simp)⟩
                  · split at h
                    · rename_i hsel2
                      injection h with h2
                      subst h2
                      intro a ha
                      rcases List.mem_append.mp ha with hx | hy
                      · rcases List.mem_append.mp hx with hz | hw
                        · cases hz
                        · rw [List.mem_singleton.mp hw]
                          exact ⟨hsel2.2.2, fun hcd => absurd hcd (by simp)⟩
                      · rw [List.mem_singleton.mp hy]
                        exact ⟨hsq, fun hcd => absurd hcd (by simp)⟩
                    · injection h with h2
                      subst h2
                      intro a ha
                      rcases List.mem_append.mp ha with hx | hy
                      · rcases List.mem_append.mp hx with hz | hw
                        · cases hz
                        · cases hw
                      · rw [List.mem_singleton.mp hy]
                        exact ⟨hsq, fun hcd => absurd hcd (by simp)⟩
                · cases h
            · cases h

theorem fallbackSanitize_allowed {al : List String} {cands : List Cand}
    {a : Action} (h : a ∈ fallbackSanitize al cands) :
    al.contains a.action = true := by
  unfold fallbackSanitize at h
  rcases List.mem_filterMap.mp h with ⟨c, _, hc⟩
  split at hc
  · split at hc
    · rename_i hcond
      injection hc with h2
      rw [← h2]
      exact ((Bool.and_eq_true _ _).mp hcond).1
    · cases hc
  · cases hc

theorem mem_dedupActs {seen l : List Action} {a : Action}
    (h : a ∈ dedupActs seen l) : a ∈ l := by
  induction l generalizing seen with
  | nil => cases h
  | cons b rest ih =>
    unfold dedupActs at h
    by_cases hc : seen.contains (canonAct b) = true
    · rw [if_pos hc] at h
      exact List.mem_cons_of_mem _ (ih h)
    · rw [if_neg hc] at h
      rcases List.mem_cons.mp h with he | hm
      · rw [he]
        exact List.mem_cons_self ..
      · exact List.mem_cons_of_mem _ (ih hm)

theorem mem_reorderTrio {l : List Action} {a : Action}
    (h : a ∈ reorderTrio l) : a ∈ l := by
  simp only [reorderTrio] at h
  split at h
  · exact h
  · rcases List.mem_append.mp h with h1 | h4
    · rcases List.mem_append.mp h1 with h2 | h3
      · rcases List.mem_append.mp h2 with h5 | h6
        · exact (List.mem_filter.mp h5).1
        · exact (List.mem_filter.mp h6).1
      · exact (List.mem_filter.mp h3).1
    · exact (List.mem_filter.mp h4).1

theorem mem_coherencePayGate {st : ConvState} {l : List Action} {a : Action}
    (h : a ∈ coherencePayGate st l) : a ∈ l ∨ a = askPayQ := by
  simp only [coherencePayGate] at h
  split at h
  · split at h
    · exact .inl (mem_dropName h).1
    · rcases List.mem_cons.mp h with he | hm
      · exact .inr he
      · exact .inl (mem_dropName hm).1
  · exact .inl h

/-! ## Claim theorems -/

/-- C9 (confirmed).  For the text `"ítem 1 agregar 3"`, a state whose
`results` has exactly one entry, and a default (absent) catalog, the
fast path yields `[select_index(1), set_qty(3), add_to_cart()]` and
`interpret` returns it for every model oracle — in particular without
consulting the external model. -/
theorem C9_fastpath_item1 (llm : Option (List Cand)) (row : Row)
    (mode : String) (sel qh : Option Int) (cart : List CartItem)
    (pay : List Unit) :
    interpret "ítem 1 agregar 3" ⟨mode, [row], sel, qh, cart, pay⟩ .absent llm =
      [⟨"select_index", [("index", .int 1)]⟩,
       ⟨"set_qty", [("qty", .int 3)]⟩,
       ⟨"add_to_cart", []⟩] := rfl

/-- C7 counterexample.  On a model failure the fallback `term` is the
*stripped* raw text: for the raw input `" hola "` the claim's asserted
output (with `term = " hola "`) is not produced. -/
theorem C7_counterexample :
    interpret " hola " {} .absent none =
      [⟨"search", [("term", .str "hola")]⟩] ∧
    (" hola " : String) ≠ "hola" := by
  constructor
  · rfl
  · decide

/-- C7 amended.  If the fast path found no plan (the model is
actually consulted) and the model call fails, `interpret` returns
exactly one `search` action whose `term` equals the stripped raw
input text. -/
theorem C7_amended (text : String) (st : ConvState) (cat : CatalogInput)
    (h : deterministicFastpath (pyStrip text) st (normalizeCatalog cat) = none) :
    interpret text st cat none =
      [⟨"search", [("term", .str (pyStrip text))]⟩] := by
  simp only [interpret]
  rw [h]

theorem C7_amended_witness :
    deterministicFastpath (pyStrip "hola") {} (normalizeCatalog .absent) = none ∧
    interpret "hola" {} .absent none = [⟨"search", [("term", .str (pyStrip "hola"))]⟩] := by
  have h : deterministicFastpath (pyStrip "hola") {} (normalizeCatalog .absent) = none := by
    decide
  exact ⟨h, C7_amended "hola" {} .absent h⟩

/-- C3 counterexample.  Normalization is not idempotent: for
`"uno,"` the first pass strips the comma, uncovering the spelled
number `uno`, which only the second pass converts to `1`. -/
theorem C3_counterexample :
    normalizeEs ((normalizeEs "uno,").text) ≠ normalizeEs "uno," := by
  decide

/-- C3 amended.  Normalization is idempotent on every input that each
of its stages already leaves unchanged (no quote glyphs, accents or
upper case, no spelled-number vocabulary, no out-of-alphabet
characters, collapsed whitespace, no phonetic-correction triggers);
on such input the normalized text equals the input and a second pass
reproduces the same result.  In general idempotence fails
(`C3_counterexample`). -/
theorem C3_amended (s : String)
    (h1 : normalizeQuotes s.data = s.data)
    (h2 : stripLower s.data = s.data)
    (h3 : replaceSpelledNumbers s.data = s.data)
    (h4 : charsetFilter s.data = s.data)
    (h5 : collapseWs s.data = s.data)
    (h6 : phoneticFix s.data = s.data) :
    normalizeEs ((normalizeEs s).text) = normalizeEs s := by
  have hcore : normCore s.data = s.data := by
    unfold normCore
    rw [h1, h2, h3, h4, h5, h6]
  have htext : (normalizeEs s).text = s := by
    by_cases hs : s = ""
    · subst hs; rfl
    · unfold normalizeEs
      simp only [hs, if_false]
      rw [hcore]
  rw [htext]

theorem C3_amended_witness :
    normalizeEs ((normalizeEs "tubo 20 mm").text) = normalizeEs "tubo 20 mm" :=
  C3_amended "tubo 20 mm" (by decide) (by decide) (by decide) (by decide)
    (by decide) (by decide)

/-- C2 (code bug).  `i = int(params.get("index") or 0)` turns a
*missing* index into `0`, so with a nonempty cart a by-name
`remove_from_cart` (no index param) takes the out-of-range branch and
is replaced by the range question — the name branch the source (and
spec) provides is unreachable.  Evaluation at the failing input. -/
theorem C2_code_bug_eval :
    applyGuardrailsE "saca el producto"
      ⟨"", [], none, none, [⟨some "A", none, none, some 1⟩], []⟩
      ["ask_user", "remove_from_cart"]
      [⟨.str "remove_from_cart", [("name", .str "caño")]⟩] =
      .ok [askRangeQ 1] := by
  decide

/-- C8 (confirmed).  In the coherence stage, FACTURA mode with no
payments and a `confirm_document` in the batch: every
`confirm_document` is dropped, and a single payment `ask_user` is
prepended exactly when no `set_payment` is present in the batch. -/
theorem C8_payment_gate (st : ConvState) (l : List Action)
    (hm : (⟨pyUpperL st.mode.data⟩ : String) = "FACTURA")
    (hp : st.payments = [])
    (hc : l.any (fun a => a.action == "confirm_document") = true) :
    (∀ a ∈ coherencePayGate st l, a.action ≠ "confirm_document") ∧
    (l.any (fun a => a.action == "set_payment") = true →
      coherencePayGate st l = dropName "confirm_document" l) ∧
    (l.any (fun a => a.action == "set_payment") = false →
      coherencePayGate st l = askPayQ :: dropName "confirm_document" l) := by
  have hneed : needPaymentFirst st = true := by
    unfold needPaymentFirst
    rw [hm, hp]
    rfl
  have hany := any_dropName_ne "confirm_document" "set_payment" (by decide) l
  unfold coherencePayGate
  rw [hneed, hc]
  simp only [Bool.true_and, if_true]
  refine ⟨?_, ?_, ?_⟩
  · intro a ha
    by_cases hsp : (dropName "confirm_document" l).any (fun a => a.action == "set_payment") = true
    · rw [hsp] at ha
      simp only [if_true] at ha
      exact (mem_dropName ha).2
    · rw [Bool.not_eq_true] at hsp
      rw [hsp] at ha
      simp only [Bool.false_eq_true, if_false] at ha
      rcases List.mem_cons.mp ha with h | h
      · subst h; decide
      · exact (mem_dropName h).2
  · intro hs
    rw [← hany] at hs
    rw [hs]
    rfl
  · intro hs
    rw [← hany] at hs
    rw [hs]
    rfl

theorem C8_payment_gate_witness :
    coherencePayGate ⟨"FACTURA", [], none, none, [], []⟩ [⟨"confirm_document", []⟩] =
      askPayQ :: dropName "confirm_document" [⟨"confirm_document", []⟩] :=
  (C8_payment_gate ⟨"FACTURA", [], none, none, [], []⟩
    [⟨"confirm_document", []⟩] (by decide) rfl (by decide)).2.2 (by decide)

/-- C10 (confirmed).  Stage-1 guardrail invariant: no surviving
`search` action carries a `query` param without a `term` param, and a
whitelisted `search` candidate whose coerced params have a `query`
key but no `term` key has `query` renamed to `term` with its value
preserved. -/
theorem C10_query_term_rename (allowed : List String) (cands : List Cand) :
    (∀ a ∈ stage0 allowed cands, a.action = "search" →
      pHas a.params "query" = true → pHas a.params "term" = true) ∧
    (∀ c : Cand, c.action = PVal.str "search" →
      allowed.contains "search" = true →
      pHas (coerceParams c.params) "query" = true →
      pHas (coerceParams c.params) "term" = false →
      sanitizeOne allowed c = some ⟨"search",
        pErase (coerceParams c.params) "query" ++
          [("term", (pGet (coerceParams c.params) "query").getD PVal.null)]⟩) := by
  constructor
  · intro a ha hs hq
    unfold stage0 at ha
    rcases List.mem_filterMap.mp ha with ⟨c, _, hc⟩
    unfold sanitizeOne at hc
    cases hact : c.action with
    | str n =>
      rw [hact] at hc
      simp only at hc
      by_cases hn : allowed.contains n = true
      · rw [hn] at hc
        simp only [if_true, Option.some.injEq] at hc
        by_cases hcond : (n == "search" && pHas (coerceParams c.params) "query" &&
            !pHas (coerceParams c.params) "term") = true
        · rw [hcond] at hc
          simp only [if_true] at hc
          subst hc
          simp only [pHas, List.any_append, List.any_cons, List.any_nil]
          simp
        · rw [Bool.not_eq_true] at hcond
          rw [hcond] at hc
          simp only [Bool.false_eq_true, if_false] at hc
          subst hc
          simp only at hs hq
          subst hs
          by_cases ht : pHas (coerceParams c.params) "term" = true
          · exact ht
          · rw [Bool.not_eq_true] at ht
            rw [hq, ht] at hcond
            simp at hcond
      · rw [Bool.not_eq_true] at hn
        rw [hn] at hc
        simp at hc
    | int m => rw [hact] at hc; simp at hc
    | bool b => rw [hact] at hc; simp at hc
    | null => rw [hact] at hc; simp at hc
    | bad => rw [hact] at hc; simp at hc
  · intro c hact hall hq ht
    unfold sanitizeOne
    rw [hact]
    simp only [hall, if_true]
    have hcond : (("search" : String) == "search" && pHas (coerceParams c.params) "query" &&
        !pHas (coerceParams c.params) "term") = true := by
      rw [hq, ht]; rfl
    rw [hcond]
    rfl

theorem C10_query_term_rename_witness :
    sanitizeOne ["search"] ⟨.str "search", [("query", .str "caño")]⟩ =
      some ⟨"search", [("term", .str "caño")]⟩ := by
  have h := (C10_query_term_rename ["search"]
    [⟨.str "search", [("query", .str "caño")]⟩]).2
    ⟨.str "search", [("query", .str "caño")]⟩ rfl (by decide) (by decide) (by decide)
  exact h

/-- C6 counterexample.  For the raw input `"confírmar"` the fast path
emits `confirm_document` (its pattern is tested on the *normalized*
text), while the raw text matches neither the guardrail confirmation
pattern nor the fast-path pattern — so `confirm_document` appears
without the raw text matching the confirmation-intent pattern. -/
theorem C6_counterexample :
    interpret "confírmar" {} .absent none = [⟨"confirm_document", []⟩] ∧
    confirmRegexS "confírmar" = false ∧
    confirmFastRegexS "confírmar".data = false := by
  refine ⟨rfl, by decide, by decide⟩

/-- C1 counterexample.  With whitelist `["remove_from_cart"]`, the
cart-bounds stage injects an `ask_user` action that is not a member of
the caller-supplied allowed-action set. -/
theorem C1_counterexample :
    interpret "saca el producto" {} (.listC [.strE "remove_from_cart"])
        (some [⟨.str "remove_from_cart", []⟩]) = [askIdxNameQ] ∧
    (normalizeCatalog (.listC [.strE "remove_from_cart"])).contains
        askIdxNameQ.action = false := by
  refine ⟨rfl, by decide⟩

/-- C5 (confirmed).  An `add_to_cart` appears in the guardrailed
output only if a `select_index` is present in the same batch or the
state's `selected_index` is truthy, and the available index (the
first `select_index`'s `index` param, else the state's) passes the
bounds test `1 ≤ idx ≤ len(results)`. -/
theorem C5_add_to_cart_precondition (t : String) (st : ConvState)
    (al : List String) (cands : List Cand) (O : List Action)
    (hok : applyGuardrailsE t st al cands = .ok O)
    (a : Action) (ha : a ∈ O) (hadd : a.action = "add_to_cart") :
    ((∃ b ∈ O, b.action = "select_index") ∨ truthyOptInt st.selected_index = true) ∧
    idxOkOn st O = true := by
  have hany : O.any addB = true :=
    List.any_eq_true.mpr ⟨a, ha, by unfold addB; rw [hadd]; rfl⟩
  obtain ⟨hor, hidx⟩ := guardrails_addInv hok hany
  refine ⟨?_, hidx⟩
  rcases (Bool.or_eq_true _ _).mp hor with hs | ht
  · left
    rcases List.any_eq_true.mp hs with ⟨b, hb, hbsel⟩
    exact ⟨b, hb, beq_iff_eq.mp hbsel⟩
  · right
    exact ht

theorem C5_add_to_cart_precondition_witness :
    ((∃ b ∈ ([⟨"select_index", [("index", .int 2)]⟩, ⟨"add_to_cart", []⟩] : List Action),
        b.action = "select_index") ∨
      truthyOptInt (⟨"", [{}, {}, {}], none, none, [], []⟩ : ConvState).selected_index = true) ∧
    idxOkOn ⟨"", [{}, {}, {}], none, none, [], []⟩
      [⟨"select_index", [("index", .int 2)]⟩, ⟨"add_to_cart", []⟩] = true := by
  have hok : applyGuardrailsE "" ⟨"", [{}, {}, {}], none, none, [], []⟩
      ["add_to_cart", "select_index"]
      [⟨.str "select_index", [("index", .int 2)]⟩, ⟨.str "add_to_cart", []⟩] =
      .ok [⟨"select_index", [("index", .int 2)]⟩, ⟨"add_to_cart", []⟩] := by
    decide
  exact C5_add_to_cart_precondition "" _ _ _ _ hok ⟨"add_to_cart", []⟩
    (by decide) rfl

/-- C4 counterexample.  The guardrail engine is not idempotent:
under a search trigger the term cleaner strips one leading article
per pass (`"la la bomba"` → `"la bomba"` → `"bomba"`). -/
theorem C4_counterexample :
    applyGuardrailsE "buscame tornillos" {} ["search"]
        [⟨.str "search", [("term", .str "la la bomba")]⟩] =
      .ok [⟨"search", [("term", .str "la bomba")]⟩] ∧
    applyGuardrailsE "buscame tornillos" {} ["search"]
        ([(⟨"search", [("term", .str "la bomba")]⟩ : Action)].map Action.toCand) ≠
      .ok [⟨"search", [("term", .str "la bomba")]⟩] := by
  refine ⟨by decide, by decide⟩

/-- C4 (corrected): the guardrail engine is idempotent provided the
search-only trigger does not match the stripped user text and
`ask_user` is whitelisted: re-running `applyGuardrailsE` on its own
output returns that output unchanged. -/
theorem C4_amended (t : String) (st : ConvState) (al : List String)
    (cands : List Cand) (O : List Action)
    (htrig : searchOnlyRegexS (pyStrip t) = false)
    (hask : al.contains "ask_user" = true)
    (h : applyGuardrailsE t st al cands = .ok O) :
    applyGuardrailsE t st al (O.map Action.toCand) = .ok O := by
  have hinv := guardrails_GInv h
  have haddinv := guardrails_addInv h
  simp only [applyGuardrailsE]
  rw [stage0_id hask (fun a ha => (hinv a ha).1.1)]
  have hA : stageA (pyStrip t) O = O := by
    unfold stageA
    exact stageGate_id (fun a ha => (hinv a ha).1.2.1)
  rw [hA, stageB_id haddinv,
    stageGate_id (fun a ha => (hinv a ha).1.2.2.1),
    stageGate_id (fun a ha => (hinv a ha).1.2.2.2.1),
    stageGate_id (fun a ha => (hinv a ha).1.2.2.2.2.1),
    stageG_no_trigger O htrig]
  dsimp only
  rw [stageGate_id (fun a ha => (hinv a ha).1.2.2.2.2.2.1),
    stageGate_id (fun a ha => (hinv a ha).1.2.2.2.2.2.2),
    stageJ_id (fun a ha hr i hi => ((hinv a ha).2 hr).2 i hi),
    stage5_id (fun a ha hr => ((hinv a ha).2 hr).1)]

theorem C4_amended_witness :
    searchOnlyRegexS (pyStrip "saca el producto") = false ∧
    (["ask_user", "remove_from_cart"] : List String).contains "ask_user" = true ∧
    applyGuardrailsE "saca el producto" {} ["ask_user", "remove_from_cart"]
      ([askIdxNameQ].map Action.toCand) = .ok [askIdxNameQ] :=
  ⟨by decide, by decide,
    C4_amended "saca el producto" {} ["ask_user", "remove_from_cart"]
      [⟨.str "remove_from_cart", []⟩] [askIdxNameQ]
      (by decide) (by decide) (by decide)⟩

/-- C1 (corrected).  On the fast path and on the planner path (model
call succeeded) every output action's name is a member of the
caller-supplied allowed-action set, OR is an `ask_user` injected by
the pipeline itself — the injected questions are not checked against
the whitelist, so the original whitelist invariant fails (see the
counterexample). -/
theorem C1_amended (text : String) (st : ConvState) (cat : CatalogInput)
    (cands : List Cand) (a : Action)
    (ha : a ∈ interpret text st cat (some cands)) :
    (normalizeCatalog cat).contains a.action = true ∨ a.action = "ask_user" := by
  simp only [interpret] at ha
  split at ha
  · rename_i l hfp
    exact .inl (fastpath_mem hfp a ha).1
  · have h1 := mem_dedupActs ha
    have h2 := mem_reorderTrio h1
    rcases mem_coherencePayGate h2 with h3 | hpq
    · cases hg : applyGuardrailsE (pyStrip text) st (normalizeCatalog cat) cands with
      | ok O =>
        rw [hg] at h3
        exact (guardrails_GInv hg a h3).1.1.1
      | error e =>
        rw [hg] at h3
        exact .inl (fallbackSanitize_allowed h3)
    · right
      rw [hpq]
      rfl

theorem C1_amended_witness :
    (normalizeCatalog (.listC [.strE "remove_from_cart"])).contains
        askIdxNameQ.action = true ∨
      askIdxNameQ.action = "ask_user" :=
  C1_amended "saca el producto" {} (.listC [.strE "remove_from_cart"])
    [⟨.str "remove_from_cart", []⟩] askIdxNameQ (by decide)

/-- C6 (corrected).  A `confirm_document` in the pipeline output
requires the NORMALIZED text to match the fast-path confirmation
pattern, or the stripped raw text to match the guardrail confirmation
pattern, or the guardrail engine to have degraded to its
exception fallback (which filters only by whitelist) — the raw-text
claim fails because the fast path tests its pattern on the normalized
text (see the counterexample). -/
theorem C6_amended (text : String) (st : ConvState) (cat : CatalogInput)
    (llm : Option (List Cand)) (a : Action)
    (ha : a ∈ interpret text st cat llm)
    (hc : a.action = "confirm_document") :
    confirmFastRegexS (normalizeEs (pyStrip text)).text.data = true ∨
    confirmRegexS (pyStrip text) = true ∨
    ∃ cands, llm = some cands ∧
      applyGuardrailsE (pyStrip text) st (normalizeCatalog cat) cands =
        .error () := by
  simp only [interpret] at ha
  split at ha
  · rename_i l hfp
    exact .inl ((fastpath_mem hfp a ha).2 hc)
  · split at ha
    · rw [List.mem_singleton.mp ha] at hc
      exact absurd hc (by simp)
    · rename_i llm0 cands
      have h1 := mem_dedupActs ha
      have h2 := mem_reorderTrio h1
      rcases mem_coherencePayGate h2 with h3 | hpq
      · cases hg : applyGuardrailsE (pyStrip text) st (normalizeCatalog cat)
            cands with
        | ok O =>
          rw [hg] at h3
          have hcr := (guardrails_GInv hg a h3).1.2.1 hc
          rw [pyStrip_idem] at hcr
          exact .inr (.inl hcr)
        | error e =>
          cases e
          exact .inr (.inr ⟨cands, rfl, hg⟩)
      · rw [hpq] at hc
        exact absurd hc (by decide)

theorem C6_amended_witness :
    confirmFastRegexS (normalizeEs (pyStrip "confírmar")).text.data = true ∨
    confirmRegexS (pyStrip "confírmar") = true ∨
    ∃ cands, (none : Option (List Cand)) = some cands ∧
      applyGuardrailsE (pyStrip "confírmar") ({} : ConvState)
        (normalizeCatalog .absent) cands = .error () :=
  C6_amended "confírmar" {} .absent none ⟨"confirm_document", []⟩
    (by decide) rfl

end Bridge
